import Mathlib

/-!
Verification of the switchboard-mcp agent broker.

This file gives a shallow embedding of the core pure logic of the
switchboard-mcp crate and proves (or refutes) the frozen claims about it.
Rust HashMap values are modelled as association lists with
insert-overwrite semantics; HashSet values as lists with membership;
strings as Lean strings (lists of characters).  External collaborators
(serde YAML/TOML deserialization, the filesystem, the codex driver) enter
as explicit oracle parameters or as event lists, never as stubbed claims.
-/

set_option maxHeartbeats 1000000

namespace Switchboard

/-! ## Association-list model of HashMap and basic string helpers -/

/-- Lookup in an association list, first matching key wins
(models HashMap::get). -/
def lookupA {α : Type} (m : List (String × α)) (k : String) : Option α :=
  match m with
  | [] => none
  | (k', v) :: rest => if k' = k then some v else lookupA rest k

/-- Insert with overwrite (models HashMap::insert). -/
def insertA {α : Type} (m : List (String × α)) (k : String) (v : α) :
    List (String × α) :=
  match m with
  | [] => [(k, v)]
  | (k', v') :: rest =>
      if k' = k then (k, v) :: rest else (k', v') :: insertA rest k v

/-- Insert only if the key is absent (models HashMap entry or_insert). -/
def insertIfAbsent {α : Type} (m : List (String × α)) (k : String) (v : α) :
    List (String × α) :=
  match lookupA m k with
  | some _ => m
  | none => m ++ [(k, v)]

theorem lookupA_insertA {α : Type} (m : List (String × α)) (k : String) (v : α)
    (k' : String) :
    lookupA (insertA m k v) k' = if k = k' then some v else lookupA m k' := by
  induction m with
  | nil => simp [insertA, lookupA]
  | cons hd tl ih =>
      obtain ⟨k0, v0⟩ := hd
      by_cases h0 : k0 = k
      · subst h0
        by_cases h1 : k0 = k'
        · subst h1; simp [insertA, lookupA]
        · simp [insertA, lookupA, h1]
      · by_cases h1 : k0 = k'
        · subst h1
          have hkk : ¬ k = k0 := fun h => h0 h.symm
          simp [insertA, lookupA, h0, hkk]
        · simp [insertA, lookupA, h0, h1, ih]

theorem lookupA_append_single {α : Type} (m : List (String × α)) (k k' : String)
    (v : α) :
    lookupA (m ++ [(k, v)]) k' =
      match lookupA m k' with
      | some w => some w
      | none => if k = k' then some v else none := by
  induction m with
  | nil => simp [lookupA]
  | cons hd tl ih =>
      obtain ⟨k0, v0⟩ := hd
      by_cases h0 : k0 = k'
      · subst h0; simp [lookupA]
      · simp [lookupA, h0, ih]

theorem lookupA_insertIfAbsent {α : Type} (m : List (String × α)) (k : String)
    (v : α) (k' : String) :
    lookupA (insertIfAbsent m k v) k' =
      match lookupA m k' with
      | some w => some w
      | none => if k = k' then some v else none := by
  unfold insertIfAbsent
  cases hm : lookupA m k with
  | some w =>
      cases hk' : lookupA m k' with
      | some w' => simp [hk']
      | none =>
          have hkk : ¬ k = k' := by
            intro h; subst h; rw [hm] at hk'; cases hk'
          simp [hk', hkk]
  | none => exact lookupA_append_single m k k' v

/-- ASCII lowercase letter range. -/
def isAsciiLowerAlpha (c : Char) : Bool :=
  97 ≤ c.toNat && c.toNat ≤ 122

/-- ASCII uppercase letter range. -/
def isAsciiUpperAlpha (c : Char) : Bool :=
  65 ≤ c.toNat && c.toNat ≤ 90

/-- ASCII digit range. -/
def isAsciiDigit (c : Char) : Bool :=
  48 ≤ c.toNat && c.toNat ≤ 57

/-- Rust char::is_ascii_alphanumeric. -/
def isAsciiAlnum (c : Char) : Bool :=
  isAsciiLowerAlpha c || isAsciiUpperAlpha c || isAsciiDigit c

/-- Rust char::to_ascii_lowercase. -/
def toAsciiLower (c : Char) : Char :=
  if isAsciiUpperAlpha c then Char.ofNat (c.toNat + 32) else c

/-- Rust str::to_ascii_lowercase, applied characterwise. -/
def lowerStr (s : String) : String :=
  ⟨s.data.map toAsciiLower⟩

/-- Whitespace predicate used to model Rust str::trim on the ASCII
inputs relevant here. -/
def isWs (c : Char) : Bool :=
  c = ' ' || c = '\t' || c = '\n' || c = '\r'

/-- Drop leading and trailing characters satisfying p
(models Rust str::trim_matches and str::trim). -/
def trimBy (p : Char → Bool) (cs : List Char) : List Char :=
  ((cs.dropWhile p).reverse.dropWhile p).reverse

/-- Rust str::trim (ASCII whitespace model). -/
def rustTrim (s : String) : String :=
  ⟨trimBy isWs s.data⟩

/-- A string is whitespace-only when every character is whitespace
(the empty string vacuously qualifies). -/
def isWsOnly (s : String) : Bool :=
  s.data.all isWs

/-! ## Naming (src/crates/switchboard-mcp/src/model/naming.rs)

safe_name maps each character: ASCII alphanumerics to lowercase, all
others to an underscore, then trims leading/trailing underscores. -/

/-- Per-character step of safe_name. -/
def safeChar (c : Char) : Char :=
  if isAsciiAlnum c then toAsciiLower c else '_'

/-- safe_name from naming.rs. -/
def safe_name (s : String) : String :=
  ⟨trimBy (fun c => c = '_') (s.data.map safeChar)⟩

/-- tool_name_for from naming.rs: the variant tool-name start string
concatenated with safe_name. -/
def tool_name_for (pfx : String) (name : String) : String :=
  pfx ++ safe_name name

/-- Characters allowed in a safe_name output. -/
def isSafeOutChar (c : Char) : Bool :=
  isAsciiLowerAlpha c || isAsciiDigit c || c = '_'

theorem toNat_ofNat_of_valid {n : Nat} (h : n.isValidChar) :
    (Char.ofNat n).toNat = n := by
  rw [Char.ofNat, dif_pos h]
  simp [Char.ofNatAux, Char.toNat, UInt32.toNat, BitVec.toNat_ofNatLt]

theorem toNat_toAsciiLower_upper {c : Char} (h : isAsciiUpperAlpha c = true) :
    (toAsciiLower c).toNat = c.toNat + 32 := by
  have hrange : 65 ≤ c.toNat ∧ c.toNat ≤ 90 := by
    simpa [isAsciiUpperAlpha, Bool.and_eq_true, decide_eq_true_eq] using h
  have hvalid : (c.toNat + 32).isValidChar := by
    left
    omega
  rw [toAsciiLower, if_pos h]
  exact toNat_ofNat_of_valid hvalid

theorem upper_false_of_lower {c : Char} (h : isAsciiLowerAlpha c = true) :
    isAsciiUpperAlpha c = false := by
  rw [Bool.eq_false_iff]
  intro hcon
  rw [isAsciiLowerAlpha, Bool.and_eq_true, decide_eq_true_eq,
    decide_eq_true_eq] at h
  rw [isAsciiUpperAlpha, Bool.and_eq_true, decide_eq_true_eq,
    decide_eq_true_eq] at hcon
  omega

theorem upper_false_of_digit {c : Char} (h : isAsciiDigit c = true) :
    isAsciiUpperAlpha c = false := by
  rw [Bool.eq_false_iff]
  intro hcon
  rw [isAsciiDigit, Bool.and_eq_true, decide_eq_true_eq,
    decide_eq_true_eq] at h
  rw [isAsciiUpperAlpha, Bool.and_eq_true, decide_eq_true_eq,
    decide_eq_true_eq] at hcon
  omega

theorem safeChar_out (c : Char) : isSafeOutChar (safeChar c) = true := by
  unfold safeChar
  by_cases h : isAsciiAlnum c = true
  · simp only [h, if_pos]
    unfold isAsciiAlnum at h
    rcases Bool.or_eq_true_iff.mp h with h' | hd
    · rcases Bool.or_eq_true_iff.mp h' with hl | hu
      · rw [toAsciiLower, if_neg (by simp [upper_false_of_lower hl])]
        simp [isSafeOutChar, hl]
      · have hn := toNat_toAsciiLower_upper hu
        rw [isAsciiUpperAlpha, Bool.and_eq_true, decide_eq_true_eq,
          decide_eq_true_eq] at hu
        have : isAsciiLowerAlpha (toAsciiLower c) = true := by
          rw [isAsciiLowerAlpha, Bool.and_eq_true, decide_eq_true_eq,
            decide_eq_true_eq, hn]
          omega
        simp [isSafeOutChar, this]
    · rw [toAsciiLower, if_neg (by simp [upper_false_of_digit hd])]
      simp [isSafeOutChar, hd]
  · simp only [h]
    simp [isSafeOutChar]

theorem safeChar_fix {c : Char} (h : isSafeOutChar c = true) : safeChar c = c := by
  unfold isSafeOutChar at h
  rcases Bool.or_eq_true_iff.mp h with h' | hu
  · rcases Bool.or_eq_true_iff.mp h' with hl | hd
    · have halnum : isAsciiAlnum c = true := by
        simp [isAsciiAlnum, hl]
      rw [safeChar, if_pos halnum, toAsciiLower,
        if_neg (by simp [upper_false_of_lower hl])]
    · have halnum : isAsciiAlnum c = true := by
        simp [isAsciiAlnum, hd]
      rw [safeChar, if_pos halnum, toAsciiLower,
        if_neg (by simp [upper_false_of_digit hd])]
  · have hc : c = '_' := by
      simpa [decide_eq_true_eq] using hu
    subst hc
    have : isAsciiAlnum '_' = false := by decide
    simp [safeChar, this]

theorem dropWhile_eq_self_of_head {p : Char → Bool} {cs : List Char}
    (h : ∀ c, cs.head? = some c → p c = false) :
    cs.dropWhile p = cs := by
  cases cs with
  | nil => rfl
  | cons c rest =>
      have := h c rfl
      simp [List.dropWhile, this]

theorem head_dropWhile_false {p : Char → Bool} (cs : List Char) :
    ∀ c, (cs.dropWhile p).head? = some c → p c = false := by
  induction cs with
  | nil => intro c h; simp [List.dropWhile] at h
  | cons hd tl ih =>
      intro c h
      by_cases hp : p hd
      · exact ih c (by simpa [List.dropWhile, hp] using h)
      · simp [List.dropWhile, hp] at h
        subst h
        simpa using hp

theorem getLast?_dropWhile {p : Char → Bool} (l : List Char) (c : Char)
    (h : (l.dropWhile p).getLast? = some c) : l.getLast? = some c := by
  induction l with
  | nil => simp [List.dropWhile] at h
  | cons hd tl ih =>
      by_cases hp : p hd
      · rw [List.dropWhile_cons, if_pos hp] at h
        have htl := ih h
        cases tl with
        | nil => simp at htl
        | cons x xs => rw [List.getLast?_cons_cons]; exact htl
      · rw [List.dropWhile_cons, if_neg hp] at h
        exact h

theorem mem_trimBy {p : Char → Bool} {cs : List Char} {c : Char}
    (h : c ∈ trimBy p cs) : c ∈ cs := by
  unfold trimBy at h
  rw [List.mem_reverse] at h
  have h1 := (List.dropWhile_sublist (l := (cs.dropWhile p).reverse) p).subset h
  rw [List.mem_reverse] at h1
  exact (List.dropWhile_sublist (l := cs) p).subset h1

theorem trimBy_head {p : Char → Bool} (cs : List Char) :
    ∀ c, (trimBy p cs).head? = some c → p c = false := by
  unfold trimBy
  intro c h
  rw [List.head?_reverse] at h
  have h1 := getLast?_dropWhile _ _ h
  rw [List.getLast?_reverse] at h1
  exact head_dropWhile_false _ c h1

theorem trimBy_last {p : Char → Bool} (cs : List Char) :
    ∀ c, (trimBy p cs).getLast? = some c → p c = false := by
  unfold trimBy
  intro c h
  rw [List.getLast?_reverse] at h
  exact head_dropWhile_false _ c h

theorem trimBy_eq_self {p : Char → Bool} {cs : List Char}
    (hh : ∀ c, cs.head? = some c → p c = false)
    (hl : ∀ c, cs.getLast? = some c → p c = false) :
    trimBy p cs = cs := by
  unfold trimBy
  rw [dropWhile_eq_self_of_head hh]
  rw [dropWhile_eq_self_of_head (by
    intro c h
    rw [List.head?_reverse] at h
    exact hl c h)]
  exact List.reverse_reverse cs

theorem map_safeChar_self {cs : List Char}
    (h : ∀ c ∈ cs, isSafeOutChar c = true) :
    cs.map safeChar = cs := by
  induction cs with
  | nil => rfl
  | cons hd tl ih =>
      simp only [List.map_cons]
      rw [safeChar_fix (h hd (by simp)), ih (fun c hc => h c (by simp [hc]))]

/-- C8: safe_name is idempotent; its output uses only lowercase ASCII
alphanumerics and underscores, with no leading or trailing underscore;
it is the underscore-trim of the characterwise map sending ASCII
alphanumerics to their lowercase and every other character to an
underscore. -/
theorem C8_safe_name_idempotent (s : String) :
    safe_name (safe_name s) = safe_name s ∧
    (∀ c ∈ (safe_name s).data, isSafeOutChar c = true) ∧
    (∀ c, (safe_name s).data.head? = some c → c ≠ '_') ∧
    (∀ c, (safe_name s).data.getLast? = some c → c ≠ '_') ∧
    (safe_name s).data = trimBy (fun c => c = '_') (s.data.map safeChar) ∧
    (∀ c, (isAsciiAlnum c = true → safeChar c = toAsciiLower c) ∧
      (isAsciiAlnum c = false → safeChar c = '_')) := by
  have hchars : ∀ c ∈ (safe_name s).data, isSafeOutChar c = true := by
    intro c hc
    have hc' : c ∈ s.data.map safeChar := mem_trimBy hc
    rcases List.mem_map.mp hc' with ⟨c0, _, rfl⟩
    exact safeChar_out c0
  refine ⟨?_, hchars, ?_, ?_, rfl, ?_⟩
  · show (⟨trimBy (fun c => c = '_') ((safe_name s).data.map safeChar)⟩ : String)
      = safe_name s
    rw [map_safeChar_self hchars]
    rw [trimBy_eq_self
      (fun c h => by
        have := trimBy_head (p := fun c => decide (c = '_'))
          (s.data.map safeChar) c h
        simpa using this)
      (fun c h => by
        have := trimBy_last (p := fun c => decide (c = '_'))
          (s.data.map safeChar) c h
        simpa using this)]
  · intro c h
    have := trimBy_head (p := fun c => decide (c = '_')) (s.data.map safeChar) c h
    simpa using this
  · intro c h
    have := trimBy_last (p := fun c => decide (c = '_')) (s.data.map safeChar) c h
    simpa using this
  · intro c
    constructor
    · intro h; simp [safeChar, h]
    · intro h; simp [safeChar, h]

/-! ## Data model (model/types.rs, mcp/types.rs)

The enums below mirror external codex-core configuration types; their exact
variants never matter to the claims, they are only carried through. -/

/-- External codex approval-policy enum. -/
inductive AskForApproval
  | untrusted
  | onFailure
  | onRequest
  | never
deriving DecidableEq

/-- External codex reasoning-effort enum. -/
inductive ReasoningEffort
  | minimal
  | low
  | medium
  | high
deriving DecidableEq

/-- External codex reasoning-summary enum. -/
inductive ReasoningSummary
  | auto
  | concise
  | detailed
deriving DecidableEq

/-- External codex verbosity enum. -/
inductive Verbosity
  | low
  | medium
  | high
deriving DecidableEq

/-- External codex sandbox-mode enum. -/
inductive SandboxMode
  | readOnly
  | workspaceWrite
  | dangerFullAccess
deriving DecidableEq

/-- A TOML value (only the shapes the crate consults are modelled). -/
inductive Toml
  | str (s : String)
  | int (n : Int)
  | boolean (b : Bool)
  | arr (xs : List Toml)
  | table (fields : List (String × Toml))

/-- AgentRun from model/types.rs. -/
structure AgentRun where
  model : Option String := none
  model_provider : Option String := none
  approval_policy : Option AskForApproval := none
  disable_response_storage : Option Bool := none
  model_reasoning_effort : Option ReasoningEffort := none
  model_reasoning_summary : Option ReasoningSummary := none
  model_verbosity : Option Verbosity := none
  chatgpt_base_url : Option String := none
  sandbox_mode : Option SandboxMode := none
  include_plan_tool : Option Bool := none
  include_apply_patch_tool : Option Bool := none
  include_view_image_tool : Option Bool := none
  tools_web_search_request : Option Bool := none
deriving DecidableEq

/-- AgentTogglePolicy from model/types.rs. -/
structure AgentTogglePolicy where
  include_plan_tool : Option Bool := none
  include_apply_patch_tool : Option Bool := none
  include_view_image_tool : Option Bool := none
  tools_web_search_request : Option Bool := none
deriving DecidableEq

/-- McpToolRef from mcp/types.rs. -/
inductive McpToolRef
  | bare (tool : String)
  | namespaced (server_key : String) (tool : String)
deriving DecidableEq

/-- AgentConfig from model/types.rs.  Paths are modelled as strings. -/
structure AgentConfig where
  name : String
  description : String
  tags : Option (List String) := none
  toggles : Option AgentTogglePolicy := none
  mcp_tool_refs : Option (List McpToolRef) := none
  instructions_file : Option String := none
  instructions : Option String := none
  run : Option AgentRun := none
  mcp_servers : Option Toml := none

/-- McpTransport from mcp/types.rs (stdio only). -/
inductive McpTransport
  | stdio (command : String) (args : List String) (env : List (String × String))
deriving DecidableEq

/-- McpProvider from mcp/types.rs. -/
inductive McpProvider
  | claude
  | vscode
  | cursor
  | mapping
deriving DecidableEq

/-- McpServerOrigin from mcp/types.rs. -/
structure McpServerOrigin where
  provider : McpProvider
  path : Option String := none
  note : Option String := none
deriving DecidableEq

/-- NormalizedMcpServer from mcp/types.rs. -/
structure NormalizedMcpServer where
  key : String
  transport : McpTransport
  origin : McpServerOrigin
deriving DecidableEq

/-- AgentVariant from model/naming.rs. -/
inductive AgentVariant
  | codex
  | anthropic
  | vscode
deriving DecidableEq

/-- AgentSource from model/source.rs. -/
structure AgentSource where
  variant : AgentVariant
  path : String

/-- ResolvedAgent from model/prepared.rs (loader working record). -/
structure ResolvedAgent where
  source : AgentSource
  config : AgentConfig
  tool_name : String
  mcp_servers : List (String × NormalizedMcpServer) := []

/-- PreparedAgent from model/prepared.rs.  The driver-shaped sub-server
configs are kept in their normalized form here; the TOML conversion in
convert_servers_for_agent is not consulted by any claim. -/
structure PreparedAgent where
  tool_name : String
  name : String
  description : String
  tags : Option (List String) := none
  provider : AgentVariant
  mcp_servers : List (String × NormalizedMcpServer) := []
  instructions : Option String := none
  run : Option AgentRun := none

/-- An empty agent configuration used to build concrete test inputs. -/
def emptyAgentConfig (n : String) : AgentConfig :=
  { name := n, description := "d" }

/-! ## Tool-name dedupe (loader.rs, dedupe_tool_names) -/

/-- Recursive worker for dedupe_tool_names: `seen` maps a base name to the
number of times it has been encountered; a repeated name bumps the count
and appends it, a fresh name is recorded with count 1 and kept. -/
def dedupeGo (seen : List (String × Nat)) :
    List ResolvedAgent → List ResolvedAgent
  | [] => []
  | r :: rest =>
      let candidate := r.tool_name
      match lookupA seen candidate with
      | some count =>
          let newCount := count + 1
          { r with tool_name := candidate ++ "_" ++ toString newCount } ::
            dedupeGo (insertA seen candidate newCount) rest
      | none =>
          { r with tool_name := candidate } ::
            dedupeGo (insertA seen candidate 1) rest

/-- dedupe_tool_names from loader.rs. -/
def dedupe_tool_names (records : List ResolvedAgent) : List ResolvedAgent :=
  dedupeGo [] records

/-- A minimal resolved agent carrying a given tool name. -/
def mkResolved (tn : String) : ResolvedAgent :=
  { source := { variant := AgentVariant.codex, path := "/agents/a.toml" },
    config := emptyAgentConfig tn,
    tool_name := tn }

/-- C2 (failing input): with input tool names a, a, a_2 — all derivable
from real agent names (a, a, and the name "a 2") under an empty
variant name start — dedupe_tool_names renames the second record to a_2,
which collides with the untouched third record: the output names are not
pairwise distinct, contradicting the stated invariant and the module
documentation ("de-duplicate tool names"). -/
theorem C2_dedupe_not_distinct :
    tool_name_for "" "a" = "a" ∧
    tool_name_for "" "a 2" = "a_2" ∧
    (dedupe_tool_names
        [mkResolved "a", mkResolved "a", mkResolved "a_2"]).map
        (fun r => r.tool_name) = ["a", "a_2", "a_2"] ∧
    ¬ ((dedupe_tool_names
        [mkResolved "a", mkResolved "a", mkResolved "a_2"]).map
        (fun r => r.tool_name)).Nodup := by
  refine ⟨by decide, by decide, ?_, ?_⟩
  · rfl
  · show ¬ (["a", "a_2", "a_2"] : List String).Nodup
    decide

/-! ## Model mapping (modelmap/types.rs, modelmap/apply.rs) -/

/-- Canonical from modelmap/types.rs. -/
structure Canonical where
  model : String
  provider : Option String := none
deriving DecidableEq

/-- ModelMap from modelmap/types.rs. -/
structure ModelMap where
  by_token : List (String × Canonical) := []
  provider_aliases : List (String × String) := []
deriving DecidableEq

/-- ApplyOptions from modelmap/types.rs. -/
structure ApplyOptions where
  normalize_provider : Bool := false
  override_provider : Bool := false
  strict : Bool := false
deriving DecidableEq

/-- The provider-alias normalization block of apply_to_agent.  The source
skips the assignment when the canonical value already equals the current
provider; the result is identical either way. -/
def normalizeProviderStep (map : ModelMap) (opts : ApplyOptions)
    (run : AgentRun) : AgentRun :=
  if opts.normalize_provider then
    match run.model_provider with
    | some p =>
        match lookupA map.provider_aliases (lowerStr p) with
        | some canon => { run with model_provider := some canon }
        | none => run
    | none => run
  else run

/-- The model-token block of apply_to_agent.  The strict/lenient miss
branches only log and leave the run unchanged. -/
def modelTokenStep (map : ModelMap) (opts : ApplyOptions)
    (run : AgentRun) : AgentRun :=
  match run.model with
  | some m =>
      match lookupA map.by_token (lowerStr m) with
      | some canon =>
          let r1 := { run with model := some canon.model }
          match canon.provider with
          | some cprov =>
              if run.model_provider = none ∨ opts.override_provider = true
              then { r1 with model_provider := some cprov }
              else r1
          | none => r1
      | none => run
  | none => run

/-- apply_to_agent from modelmap/apply.rs: return unchanged when run is
absent; otherwise normalize the provider alias, then apply the model-token
mapping, and store the updated run. -/
def apply_to_agent (agent : AgentConfig) (map : ModelMap)
    (opts : ApplyOptions) : AgentConfig :=
  match agent.run with
  | none => agent
  | some run0 =>
      { agent with
        run := some (modelTokenStep map opts
          (normalizeProviderStep map opts run0)) }

theorem lookupA_mem {α : Type} {m : List (String × α)} {k : String} {v : α}
    (h : lookupA m k = some v) : ∃ k', (k', v) ∈ m := by
  induction m with
  | nil => simp [lookupA] at h
  | cons hd tl ih =>
      obtain ⟨k0, v0⟩ := hd
      by_cases h0 : k0 = k
      · subst h0
        simp [lookupA] at h
        subst h
        exact ⟨k0, by simp⟩
      · simp only [lookupA, if_neg h0] at h
        obtain ⟨k', hk'⟩ := ih h
        exact ⟨k', by simp [hk']⟩

theorem AgentRun.eta_provider {r : AgentRun} {v : Option String}
    (h : r.model_provider = v) : { r with model_provider := v } = r := by
  cases r
  subst h
  rfl

theorem AgentRun.eta_model {r : AgentRun} {v : Option String}
    (h : r.model = v) : { r with model := v } = r := by
  cases r
  subst h
  rfl

theorem AgentRun.eta_model_and_provider {r : AgentRun} {v w : Option String}
    (hm : r.model = v) (hp : r.model_provider = w) :
    { r with model := v, model_provider := w } = r := by
  cases r
  subst hm
  subst hp
  rfl

/-- apply_to_agent with absent run is the identity (shared helper). -/
theorem apply_to_agent_none {agent : AgentConfig} {map : ModelMap}
    {opts : ApplyOptions} (h : agent.run = none) :
    apply_to_agent agent map opts = agent := by
  unfold apply_to_agent
  rw [h]

/-- apply_to_agent with a present run rewrites it through the two steps. -/
theorem apply_to_agent_some {agent : AgentConfig} {map : ModelMap}
    {opts : ApplyOptions} {run0 : AgentRun} (h : agent.run = some run0) :
    apply_to_agent agent map opts =
      { agent with run := some (modelTokenStep map opts
        (normalizeProviderStep map opts run0)) } := by
  unfold apply_to_agent
  rw [h]

/-- C10: when run is absent, apply_to_agent returns the agent unchanged. -/
theorem C10_apply_to_agent_no_run (agent : AgentConfig) (map : ModelMap)
    (opts : ApplyOptions) (h : agent.run = none) :
    apply_to_agent agent map opts = agent := by
  unfold apply_to_agent
  rw [h]

theorem C10_apply_to_agent_no_run_witness :
    (emptyAgentConfig "a").run = none ∧
    apply_to_agent (emptyAgentConfig "a") { } { } = emptyAgentConfig "a" :=
  ⟨rfl, C10_apply_to_agent_no_run (emptyAgentConfig "a") { } { } rfl⟩

/-- A provider token is alias-stable when looking up its lowercase form in
provider_aliases yields nothing or the token itself. -/
def aliasStable (map : ModelMap) (p : String) : Bool :=
  match lookupA map.provider_aliases (lowerStr p) with
  | none => true
  | some q => q == p

/-- The provider carried by a canonical entry, if any, is alias-stable. -/
def canonProviderStable (map : ModelMap) (c : Canonical) : Bool :=
  match c.provider with
  | some p => aliasStable map p
  | none => true

/-- A ModelMap is canonical-fixed when every canonical value it can produce
is a fixed point of the mapping: each canonical model token maps back to
the same entry (or to nothing), and each canonical provider is
alias-stable. -/
def canonicalFixed (map : ModelMap) : Bool :=
  (map.by_token.all fun e =>
    (match lookupA map.by_token (lowerStr e.2.model) with
     | none => true
     | some c' => c' == e.2) && canonProviderStable map e.2) &&
  (map.provider_aliases.all fun e => aliasStable map e.2)

theorem aliasStable_spec {map : ModelMap} {p : String}
    (h : aliasStable map p = true) :
    lookupA map.provider_aliases (lowerStr p) = none ∨
      lookupA map.provider_aliases (lowerStr p) = some p := by
  unfold aliasStable at h
  cases hq : lookupA map.provider_aliases (lowerStr p) with
  | none => exact Or.inl rfl
  | some q =>
      right
      rw [hq] at h
      rw [beq_iff_eq] at h
      rw [h]

theorem canonicalFixed_byToken {map : ModelMap} {k : String} {c : Canonical}
    (hcf : canonicalFixed map = true) (h : lookupA map.by_token k = some c) :
    (lookupA map.by_token (lowerStr c.model) = none ∨
      lookupA map.by_token (lowerStr c.model) = some c) ∧
    canonProviderStable map c = true := by
  obtain ⟨k', hmem⟩ := lookupA_mem h
  unfold canonicalFixed at hcf
  rw [Bool.and_eq_true] at hcf
  have hall := List.all_eq_true.mp hcf.1 _ hmem
  rw [Bool.and_eq_true] at hall
  refine ⟨?_, hall.2⟩
  cases hq : lookupA map.by_token (lowerStr c.model) with
  | none => exact Or.inl rfl
  | some c' =>
      right
      have h1 := hall.1
      rw [hq] at h1
      rw [beq_iff_eq] at h1
      rw [h1]

theorem canonicalFixed_alias {map : ModelMap} {a q : String}
    (hcf : canonicalFixed map = true)
    (h : lookupA map.provider_aliases a = some q) :
    aliasStable map q = true := by
  obtain ⟨k', hmem⟩ := lookupA_mem h
  unfold canonicalFixed at hcf
  rw [Bool.and_eq_true] at hcf
  exact List.all_eq_true.mp hcf.2 _ hmem

theorem nps_not_normalizing {map : ModelMap} {opts : ApplyOptions}
    {run : AgentRun} (hn : opts.normalize_provider = false) :
    normalizeProviderStep map opts run = run := by
  unfold normalizeProviderStep
  rw [if_neg (by simp [hn])]

theorem nps_of_stable {map : ModelMap} {opts : ApplyOptions} {run : AgentRun}
    (h : ∀ p, run.model_provider = some p → aliasStable map p = true) :
    normalizeProviderStep map opts run = run := by
  unfold normalizeProviderStep
  split
  · split
    · rename_i p hp
      split
      · rename_i canon hq
        rcases aliasStable_spec (h p hp) with h1 | h1
        · rw [hq] at h1; cases h1
        · rw [hq] at h1
          have hcanon : canon = p := by injection h1
          subst hcanon
          exact AgentRun.eta_provider hp
      · rfl
    · rfl
  · rfl

theorem nps_provider_stable {map : ModelMap} {opts : ApplyOptions}
    {run : AgentRun} (hcf : canonicalFixed map = true)
    (hn : opts.normalize_provider = true) (p : String)
    (h : (normalizeProviderStep map opts run).model_provider = some p) :
    aliasStable map p = true := by
  unfold normalizeProviderStep at h
  split at h
  · split at h
    · rename_i p0 hp
      split at h
      · rename_i q hq
        have hqp : q = p := by
          have h2 : some q = some p := h
          injection h2
        subst hqp
        exact canonicalFixed_alias hcf hq
      · rename_i hq
        rw [hp] at h
        have hpp : p0 = p := by injection h
        subst hpp
        unfold aliasStable
        rw [hq]
    · rename_i hp
      rw [hp] at h
      cases h
  · rename_i hfalse
    exact absurd hn hfalse

theorem nps_model {map : ModelMap} {opts : ApplyOptions} {run : AgentRun} :
    (normalizeProviderStep map opts run).model = run.model := by
  unfold normalizeProviderStep
  split
  · split
    · split
      · rfl
      · rfl
    · rfl
  · rfl

theorem mts_model_none {map : ModelMap} {opts : ApplyOptions} {run : AgentRun}
    (h : run.model = none) : modelTokenStep map opts run = run := by
  unfold modelTokenStep
  simp only [h]

theorem mts_miss {map : ModelMap} {opts : ApplyOptions} {run : AgentRun}
    {m : String} (hm : run.model = some m)
    (h : lookupA map.by_token (lowerStr m) = none) :
    modelTokenStep map opts run = run := by
  unfold modelTokenStep
  simp only [hm, h]

theorem mts_hit {map : ModelMap} {opts : ApplyOptions} {run : AgentRun}
    {m : String} {c : Canonical} (hm : run.model = some m)
    (hc : lookupA map.by_token (lowerStr m) = some c) :
    modelTokenStep map opts run =
      match c.provider with
      | some cprov =>
          if run.model_provider = none ∨ opts.override_provider = true
          then { run with model := some c.model, model_provider := some cprov }
          else { run with model := some c.model }
      | none => { run with model := some c.model } := by
  unfold modelTokenStep
  simp only [hm, hc]

theorem mts_provider {map : ModelMap} {opts : ApplyOptions} {run : AgentRun} :
    (modelTokenStep map opts run).model_provider = run.model_provider ∨
    ∃ m c p, run.model = some m ∧
      lookupA map.by_token (lowerStr m) = some c ∧ c.provider = some p ∧
      (modelTokenStep map opts run).model_provider = some p := by
  cases hm : run.model with
  | none => left; rw [mts_model_none hm]
  | some m =>
      cases hc : lookupA map.by_token (lowerStr m) with
      | none => left; rw [mts_miss hm hc]
      | some c =>
          rw [mts_hit hm hc]
          split
          · rename_i cprov hp
            by_cases hcond :
                run.model_provider = none ∨ opts.override_provider = true
            · right
              exact ⟨m, c, cprov, rfl, hc, hp, by rw [if_pos hcond]⟩
            · left
              rw [if_neg hcond]
          · left
            rfl

/-- Core of the amended C5: with a canonical-fixed map, the composed
normalize-then-map run transformation is idempotent. -/
theorem runStep_idem {map : ModelMap} {opts : ApplyOptions}
    (hcf : canonicalFixed map = true) (run0 : AgentRun) :
    modelTokenStep map opts (normalizeProviderStep map opts
        (modelTokenStep map opts (normalizeProviderStep map opts run0))) =
      modelTokenStep map opts (normalizeProviderStep map opts run0) := by
  have hA : normalizeProviderStep map opts
      (modelTokenStep map opts (normalizeProviderStep map opts run0)) =
      modelTokenStep map opts (normalizeProviderStep map opts run0) := by
    by_cases hn : opts.normalize_provider = true
    · apply nps_of_stable
      intro p hp
      rcases @mts_provider map opts (normalizeProviderStep map opts run0) with
        hsame | ⟨m, c, q, _, hcq, hq, hres⟩
      · rw [hsame] at hp
        exact nps_provider_stable hcf hn p hp
      · rw [hres] at hp
        have hqp : q = p := by injection hp
        subst hqp
        have hstable := (canonicalFixed_byToken hcf hcq).2
        unfold canonProviderStable at hstable
        rw [hq] at hstable
        exact hstable
    · exact nps_not_normalizing (by simpa using hn)
  rw [hA]
  -- Second token mapping is the identity on the once-mapped run.
  cases hm1 : (normalizeProviderStep map opts run0).model with
  | none =>
      rw [mts_model_none hm1, mts_model_none hm1]
  | some m =>
      cases hc1 : lookupA map.by_token (lowerStr m) with
      | none =>
          rw [mts_miss hm1 hc1, mts_miss hm1 hc1]
      | some c =>
          have hmodel2 : (modelTokenStep map opts
              (normalizeProviderStep map opts run0)).model = some c.model := by
            rw [mts_hit hm1 hc1]
            split
            · split
              · rfl
              · rfl
            · rfl
          rcases (canonicalFixed_byToken hcf hc1).1 with hfix | hfix
          · rw [mts_miss hmodel2 hfix]
          · rw [mts_hit hmodel2 hfix]
            split
            · rename_i cprov hp
              -- The canonical entry carries a provider; see whether the first
              -- pass set it.
              by_cases hcond : (normalizeProviderStep map opts
                  run0).model_provider = none ∨ opts.override_provider = true
              · -- First pass stored some cprov, so the second update is a
                -- rewrite to the existing value.
                have hprov2 : (modelTokenStep map opts
                    (normalizeProviderStep map opts run0)).model_provider =
                    some cprov := by
                  rw [mts_hit hm1 hc1]
                  simp only [hp]
                  rw [if_pos hcond]
                by_cases hov : opts.override_provider = true
                · rw [if_pos (Or.inr hov)]
                  exact AgentRun.eta_model_and_provider hmodel2 hprov2
                · have hC2 : ¬ ((modelTokenStep map opts
                      (normalizeProviderStep map opts run0)).model_provider =
                      none ∨ opts.override_provider = true) := by
                    rw [hprov2]
                    push_neg
                    exact ⟨by simp, hov⟩
                  rw [if_neg hC2]
                  exact AgentRun.eta_model hmodel2
              · -- First pass left the user provider; it is not none, and
                -- override is off, so the second pass leaves it too.
                have hprov2 : (modelTokenStep map opts
                    (normalizeProviderStep map opts run0)).model_provider =
                    (normalizeProviderStep map opts run0).model_provider := by
                  rw [mts_hit hm1 hc1]
                  simp only [hp]
                  rw [if_neg hcond]
                push_neg at hcond
                have hcond2 : ¬ ((modelTokenStep map opts
                    (normalizeProviderStep map opts run0)).model_provider =
                    none ∨ opts.override_provider = true) := by
                  rw [hprov2]
                  push_neg
                  exact hcond
                rw [if_neg hcond2]
                exact AgentRun.eta_model hmodel2
            · exact AgentRun.eta_model hmodel2

/-- A map whose canonical entries are fixed points, used as the C5 witness. -/
def fixedMap : ModelMap :=
  { by_token := [("gpt-4.1", { model := "gpt-4.1", provider := some "openai" })],
    provider_aliases := [("claude", "anthropic"), ("anthropic", "anthropic")] }

/-- Concrete agent used by the C5 witness. -/
def fixedAgent : AgentConfig :=
  { emptyAgentConfig "n" with
    run := some { model := some "GPT-4.1", model_provider := some "Claude" } }

/-- Chained map refuting unconditional idempotence: token a maps to model
b, and b is itself a token mapping to model c. -/
def chainMap : ModelMap :=
  { by_token := [("a", { model := "b" }), ("b", { model := "c" })] }

/-- Concrete agent whose model is the chained token a. -/
def chainAgent : AgentConfig :=
  { emptyAgentConfig "n" with run := some { model := some "a" } }

/-- C5 (counterexample): apply_to_agent is not idempotent for every
ModelMap — with by_token mapping a to model b and b to model c, one
application yields model b and a second application moves it on to c. -/
theorem C5_not_idempotent_counterexample :
    apply_to_agent (apply_to_agent chainAgent chainMap { }) chainMap { } ≠
      apply_to_agent chainAgent chainMap { } := by
  intro h
  have h2 : (apply_to_agent (apply_to_agent chainAgent chainMap { })
      chainMap { }).run.map (fun r => r.model) = some (some "c") := by rfl
  have h1 : (apply_to_agent chainAgent chainMap { }).run.map
      (fun r => r.model) = some (some "b") := by rfl
  rw [h] at h2
  rw [h1] at h2
  simp at h2

/-- C5 (amended): apply_to_agent is idempotent for every canonical-fixed
ModelMap — one whose canonical model tokens map back to their own entry
(or to nothing) and whose canonical providers are alias-stable. -/
theorem C5_apply_to_agent_idempotent (agent : AgentConfig) (map : ModelMap)
    (opts : ApplyOptions) (hcf : canonicalFixed map = true) :
    apply_to_agent (apply_to_agent agent map opts) map opts =
      apply_to_agent agent map opts := by
  cases hrun : agent.run with
  | none =>
      rw [apply_to_agent_none hrun, apply_to_agent_none hrun]
  | some run0 =>
      rw [apply_to_agent_some hrun]
      rw [@apply_to_agent_some { agent with run := some (modelTokenStep map
        opts (normalizeProviderStep map opts run0)) } map opts _ rfl]
      rw [runStep_idem hcf run0]

theorem C5_apply_to_agent_idempotent_witness :
    canonicalFixed fixedMap = true ∧
    apply_to_agent (apply_to_agent fixedAgent fixedMap
        { normalize_provider := true }) fixedMap
        { normalize_provider := true } =
      apply_to_agent fixedAgent fixedMap { normalize_provider := true } :=
  ⟨by decide,
   C5_apply_to_agent_idempotent fixedAgent fixedMap
     { normalize_provider := true } (by decide)⟩

/-- Map whose entry for token m has no canonical provider. -/
def noProvMap : ModelMap :=
  { by_token := [("m", { model := "m2" })] }

/-- Agent whose model is the token m and whose provider is absent. -/
def noProvAgent : AgentConfig :=
  { emptyAgentConfig "n" with run := some { model := some "m" } }

/-- C6 (counterexample): the model of noProvAgent is a by_token key and its
model_provider is absent, the model is rewritten, yet no provider is set,
because the canonical entry itself carries none. -/
theorem C6_provider_not_set_counterexample :
    lookupA noProvMap.by_token (lowerStr "m") ≠ none ∧
    (apply_to_agent noProvAgent noProvMap { }).run.map
      (fun r => r.model) = some (some "m2") ∧
    (apply_to_agent noProvAgent noProvMap { }).run.map
      (fun r => r.model_provider) = some none := by
  refine ⟨by decide, rfl, rfl⟩

/-- C6 (amended): when the lowercased model is a by_token key, (1) an
absent model_provider is set to the canonical provider provided the entry
carries one, and (2) with override_provider off a present provider is
never replaced by the canonical provider — the result is its
alias-normalization (itself when normalize_provider is off or no alias
matches). -/
theorem C6_model_provider_amended (agent : AgentConfig) (map : ModelMap)
    (opts : ApplyOptions) (run0 : AgentRun) (m : String) (c : Canonical)
    (hrun : agent.run = some run0) (hm : run0.model = some m)
    (hc : lookupA map.by_token (lowerStr m) = some c) :
    (∀ cprov, run0.model_provider = none → c.provider = some cprov →
      ∃ r, (apply_to_agent agent map opts).run = some r ∧
        r.model = some c.model ∧ r.model_provider = some cprov) ∧
    (∀ p, run0.model_provider = some p → opts.override_provider = false →
      ∃ r, (apply_to_agent agent map opts).run = some r ∧
        r.model = some c.model ∧
        r.model_provider = some (if opts.normalize_provider then
          match lookupA map.provider_aliases (lowerStr p) with
          | some q => q
          | none => p
        else p)) := by
  constructor
  · intro cprov hpnone hcp
    have hnps : normalizeProviderStep map opts run0 = run0 :=
      nps_of_stable (by intro p hp; rw [hpnone] at hp; cases hp)
    rw [apply_to_agent_some hrun, hnps, mts_hit hm hc]
    simp only [hcp]
    rw [if_pos (Or.inl hpnone)]
    exact ⟨_, rfl, rfl, rfl⟩
  · intro p hp hov
    have hrun1prov : (normalizeProviderStep map opts run0).model_provider =
        some (if opts.normalize_provider then
          match lookupA map.provider_aliases (lowerStr p) with
          | some q => q
          | none => p
        else p) := by
      unfold normalizeProviderStep
      by_cases hn : opts.normalize_provider = true
      · rw [if_pos hn, if_pos hn]
        cases hq : lookupA map.provider_aliases (lowerStr p) with
        | none => simp only [hp, hq]
        | some q => simp only [hp, hq]
      · rw [if_neg hn, if_neg hn]
        exact hp
    have hm1 : (normalizeProviderStep map opts run0).model = some m := by
      rw [nps_model]; exact hm
    rw [apply_to_agent_some hrun, mts_hit hm1 hc]
    split
    · rename_i cprov hcp
      rw [if_neg (by
        push_neg
        refine ⟨by rw [hrun1prov]; simp, by simp [hov]⟩)]
      exact ⟨_, rfl, rfl, hrun1prov⟩
    · exact ⟨_, rfl, rfl, hrun1prov⟩

/-- Run for the C6 witness: uppercase token, absent provider. -/
def w6run : AgentRun := { model := some "M" }

/-- Agent for the C6 witness. -/
def w6agent : AgentConfig := { emptyAgentConfig "n" with run := some w6run }

/-- Canonical entry (with a provider) for the C6 witness. -/
def w6canon : Canonical := { model := "m2", provider := some "prov" }

/-- Map for the C6 witness. -/
def w6map : ModelMap := { by_token := [("m", w6canon)] }

theorem C6_model_provider_amended_witness :
    ∃ r, (apply_to_agent w6agent w6map { }).run = some r ∧
      r.model = some "m2" ∧ r.model_provider = some "prov" := by
  have h := (C6_model_provider_amended w6agent w6map { } w6run "M" w6canon
    rfl rfl (by decide)).1 "prov" rfl rfl
  exact h

/-! ## Enumeration gating (loader.rs, gate_by_inventory)

The enumeration inventory (HashMap of HashSet in the source) is modelled
as an association list of tool-name lists.  The missing_namespaced and
missing_bare vectors in the source only feed warn logging and are not
modelled. -/

/-- The fallback-all loop of the bare-reference branch: attach every
matching key that is discovered. -/
def insertMatches (discovered : List (String × NormalizedMcpServer))
    (sel : List (String × NormalizedMcpServer)) (ks : List String) :
    List (String × NormalizedMcpServer) :=
  ks.foldl (fun s k =>
    match lookupA discovered k with
    | some srv => insertA s k srv
    | none => s) sel

/-- Gating of a single tool reference against the inventory. -/
def gateRef (discovered : List (String × NormalizedMcpServer))
    (inventory : List (String × List String)) (fb : Bool)
    (selected : List (String × NormalizedMcpServer)) :
    McpToolRef → List (String × NormalizedMcpServer)
  | .namespaced server_key tool =>
      match lookupA inventory server_key with
      | some tools =>
          if tools.contains tool then
            match lookupA discovered server_key with
            | some srv => insertA selected server_key srv
            | none => selected
          else selected
      | none => selected
  | .bare tool =>
      match (inventory.filter (fun e => e.2.contains tool)).map
          (fun e => e.1) with
      | [] => selected
      | [k] =>
          match lookupA discovered k with
          | some srv => insertA selected k srv
          | none => selected
      | ks =>
          if fb then insertMatches discovered selected ks else selected

/-- gate_by_inventory from loader.rs: build the selection from the refs,
then attach it — or attach every discovered server when the selection is
empty and attachment is not limited to referenced servers. -/
def gate_by_inventory (ra : ResolvedAgent)
    (discovered : List (String × NormalizedMcpServer))
    (inventory : List (String × List String))
    (fb : Bool) (limit_to_referenced : Bool) : ResolvedAgent :=
  let selected :=
    match ra.config.mcp_tool_refs with
    | some refs => refs.foldl (gateRef discovered inventory fb) []
    | none => []
  if selected.isEmpty && !limit_to_referenced then
    { ra with mcp_servers := discovered }
  else
    { ra with mcp_servers := selected }

theorem lookupA_isEmpty_false {α : Type} {sel : List (String × α)}
    {k : String} {v : α} (h : lookupA sel k = some v) :
    sel.isEmpty = false := by
  cases sel with
  | nil => cases h
  | cons hd tl => rfl

theorem insertA_from_lookup {α : Type}
    (d sel : List (String × α)) (k' k : String) (srv' srv : α)
    (hd : lookupA d k = some srv) (h' : lookupA d k' = some srv') :
    lookupA (insertA sel k' srv') k = lookupA sel k ∨
    lookupA (insertA sel k' srv') k = some srv := by
  rw [lookupA_insertA]
  by_cases hkk : k' = k
  · subst hkk
    right
    rw [if_pos rfl]
    rw [h'] at hd
    injection hd with h
    rw [h]
  · left
    rw [if_neg hkk]

theorem insertMatches_lookup (d : List (String × NormalizedMcpServer))
    (ks : List String) (sel : List (String × NormalizedMcpServer))
    (k : String) (srv : NormalizedMcpServer)
    (hd : lookupA d k = some srv) :
    lookupA (insertMatches d sel ks) k = lookupA sel k ∨
    lookupA (insertMatches d sel ks) k = some srv := by
  induction ks generalizing sel with
  | nil => left; rfl
  | cons k0 rest ih =>
      cases hk0 : lookupA d k0 with
      | none =>
          have hstep : insertMatches d sel (k0 :: rest) =
              insertMatches d sel rest := by
            unfold insertMatches
            simp only [List.foldl_cons, hk0]
          rw [hstep]
          exact ih sel
      | some srv0 =>
          have hstep : insertMatches d sel (k0 :: rest) =
              insertMatches d (insertA sel k0 srv0) rest := by
            unfold insertMatches
            simp only [List.foldl_cons, hk0]
          rw [hstep]
          rcases ih (insertA sel k0 srv0) with h | h
          · rw [h]
            exact insertA_from_lookup d sel k0 k srv0 srv hd hk0
          · right
            exact h

theorem gateRef_lookup (d : List (String × NormalizedMcpServer))
    (inv : List (String × List String)) (fb : Bool)
    (sel : List (String × NormalizedMcpServer)) (r : McpToolRef)
    (k : String) (srv : NormalizedMcpServer)
    (hd : lookupA d k = some srv) :
    lookupA (gateRef d inv fb sel r) k = lookupA sel k ∨
    lookupA (gateRef d inv fb sel r) k = some srv := by
  cases r with
  | namespaced k' t' =>
      simp only [gateRef]
      split
      · split
        · split
          · rename_i srv' hd'
            exact insertA_from_lookup d sel k' k srv' srv hd hd'
          · left; rfl
        · left; rfl
      · left; rfl
  | bare t' =>
      simp only [gateRef]
      split
      · left; rfl
      · rename_i k0 heq
        split
        · rename_i srv' hd'
          exact insertA_from_lookup d sel k0 k srv' srv hd hd'
        · left; rfl
      · split
        · exact insertMatches_lookup d _ sel k srv hd
        · left; rfl

theorem gateFold_persist (d : List (String × NormalizedMcpServer))
    (inv : List (String × List String)) (fb : Bool)
    (k : String) (srv : NormalizedMcpServer)
    (hd : lookupA d k = some srv) :
    ∀ (refs : List McpToolRef) (sel : List (String × NormalizedMcpServer)),
      lookupA sel k = some srv →
      lookupA (refs.foldl (gateRef d inv fb) sel) k = some srv := by
  intro refs
  induction refs with
  | nil => intro sel h; exact h
  | cons r rest ih =>
      intro sel h
      simp only [List.foldl_cons]
      apply ih
      rcases gateRef_lookup d inv fb sel r k srv hd with h1 | h1
      · rw [h1, h]
      · exact h1

theorem gateFold_hit (d : List (String × NormalizedMcpServer))
    (inv : List (String × List String)) (fb : Bool)
    (k t : String) (tools : List String) (srv : NormalizedMcpServer)
    (hd : lookupA d k = some srv) (hinv : lookupA inv k = some tools)
    (ht : tools.contains t = true) :
    ∀ (refs : List McpToolRef) (sel : List (String × NormalizedMcpServer)),
      McpToolRef.namespaced k t ∈ refs →
      lookupA (refs.foldl (gateRef d inv fb) sel) k = some srv := by
  intro refs
  induction refs with
  | nil => intro sel h; cases h
  | cons r rest ih =>
      intro sel hmem
      simp only [List.foldl_cons]
      rcases List.mem_cons.mp hmem with heq | hrest
      · subst heq
        apply gateFold_persist d inv fb k srv hd rest
        simp only [gateRef]
        simp only [hinv]
        rw [if_pos ht]
        simp only [hd]
        rw [lookupA_insertA]
        rw [if_pos rfl]
      · exact ih (gateRef d inv fb sel r) hrest

theorem gateFold_no_select (d : List (String × NormalizedMcpServer))
    (inv : List (String × List String)) (fb : Bool)
    (k t : String) (tools : List String)
    (hinv : lookupA inv k = some tools) (ht : tools.contains t = false) :
    ∀ (refs : List McpToolRef) (sel : List (String × NormalizedMcpServer)),
      (∀ t', McpToolRef.namespaced k t' ∈ refs → t' = t) →
      (∀ b, McpToolRef.bare b ∉ refs) →
      lookupA sel k = none →
      lookupA (refs.foldl (gateRef d inv fb) sel) k = none := by
  intro refs
  induction refs with
  | nil => intro sel _ _ h; exact h
  | cons r rest ih =>
      intro sel honly hnobare hsel
      simp only [List.foldl_cons]
      have hstep : lookupA (gateRef d inv fb sel r) k = none := by
        cases r with
        | bare b => exact absurd (by simp) (hnobare b)
        | namespaced k' t' =>
            by_cases hkk : k' = k
            · subst hkk
              have ht' : t' = t := honly t' (by simp)
              subst ht'
              simp only [gateRef]
              simp only [hinv]
              rw [if_neg (by rw [ht]; simp)]
              exact hsel
            · simp only [gateRef]
              split
              · split
                · split
                  · rename_i srv' hd'
                    rw [lookupA_insertA]
                    rw [if_neg hkk]
                    exact hsel
                  · exact hsel
                · exact hsel
              · exact hsel
      exact ih (gateRef d inv fb sel r)
        (fun t' h => honly t' (List.mem_cons_of_mem _ h))
        (fun b h => hnobare b (List.mem_cons_of_mem _ h))
        hstep

theorem contains_eq_true_iff {l : List String} {a : String} :
    l.contains a = true ↔ a ∈ l := by
  simp [List.contains]

/-- Concrete server used in the C1 counterexample and witness. -/
def srvK : NormalizedMcpServer :=
  { key := "k",
    transport := McpTransport.stdio "cmd" [] [],
    origin := { provider := McpProvider.claude } }

/-- Agent with one namespaced ref k::t, for the C1 counterexample. -/
def c1agent : ResolvedAgent :=
  { source := { variant := AgentVariant.vscode, path := "/cm/a.chatmode.md" },
    config := { emptyAgentConfig "g" with
      mcp_tool_refs := some [McpToolRef.namespaced "k" "t"] },
    tool_name := "g" }

/-- C1 (counterexample): the agent references k::t, the inventory contains
k but not tool t, and limit_to_referenced is false; the gating selection is
empty, so the empty-selection fallback attaches every enumerated server —
including k — refuting the claimed equivalence. -/
theorem C1_gating_counterexample :
    lookupA [("k", ["u"])] "k" = some ["u"] ∧
    ¬ ("t" ∈ (["u"] : List String)) ∧
    lookupA (gate_by_inventory c1agent [("k", srvK)] [("k", ["u"])]
      false false).mcp_servers "k" = some srvK := by
  refine ⟨rfl, by decide, ?_⟩
  rfl

/-- C1 (amended): for an agent with namespaced ref k::t, when the
inventory has an entry for k and k is among the discovered servers:
(1) if t is in the inventory entry then k is attached (with its discovered
definition) for every fallback and limit flag; (2) the full equivalence
"k attached iff t in inventory entry" holds when limit_to_referenced is
true (so the empty-selection fallback cannot fire) and k::t is the only
reference of the agent that can select k (no other namespaced ref with
key k and no bare refs). -/
theorem C1_gating_amended (ra : ResolvedAgent)
    (d : List (String × NormalizedMcpServer))
    (inv : List (String × List String)) (fb limit : Bool)
    (refs : List McpToolRef) (k t : String) (tools : List String)
    (srv : NormalizedMcpServer)
    (hrefs : ra.config.mcp_tool_refs = some refs)
    (hmem : McpToolRef.namespaced k t ∈ refs)
    (hinv : lookupA inv k = some tools)
    (hd : lookupA d k = some srv) :
    (t ∈ tools →
      lookupA (gate_by_inventory ra d inv fb limit).mcp_servers k
        = some srv) ∧
    (limit = true →
      (∀ t', McpToolRef.namespaced k t' ∈ refs → t' = t) →
      (∀ b, McpToolRef.bare b ∉ refs) →
      (lookupA (gate_by_inventory ra d inv fb limit).mcp_servers k ≠ none
        ↔ t ∈ tools)) := by
  have hsel : ∀ ht : t ∈ tools,
      lookupA (refs.foldl (gateRef d inv fb) []) k = some srv :=
    fun ht => gateFold_hit d inv fb k t tools srv hd hinv
      (contains_eq_true_iff.mpr ht) refs [] hmem
  constructor
  · intro ht
    unfold gate_by_inventory
    simp only [hrefs]
    rw [if_neg (by
      rw [lookupA_isEmpty_false (hsel ht)]
      simp)]
    exact hsel ht
  · intro hlimit honly hnobare
    unfold gate_by_inventory
    simp only [hrefs, hlimit]
    rw [if_neg (by simp)]
    constructor
    · intro hne
      by_cases ht : tools.contains t = true
      · exact contains_eq_true_iff.mp ht
      · exfalso
        apply hne
        exact gateFold_no_select d inv fb k t tools hinv
          (Bool.eq_false_iff.mpr ht) refs [] honly hnobare rfl
    · intro ht
      rw [hsel ht]
      simp

theorem C1_gating_amended_witness :
    ("t" ∈ (["t"] : List String)) ∧
    lookupA (gate_by_inventory c1agent [("k", srvK)] [("k", ["t"])]
      false true).mcp_servers "k" = some srvK := by
  have h := C1_gating_amended c1agent [("k", srvK)] [("k", ["t"])] false true
    [McpToolRef.namespaced "k" "t"] "k" "t" ["t"] srvK rfl (by simp) rfl rfl
  exact ⟨by simp, h.1 (by simp)⟩

/-! ## Sub-server discovery (mcp/discovery.rs)

File reading and serde_json parsing are external; the merge functions are
modelled from the parsed JSON value of each file.  A missing, unreadable
or unparsable file appears as none. -/

/-- JSON value (only the shapes discovery consults). -/
inductive Json
  | str (s : String)
  | num (n : Int)
  | boolean (b : Bool)
  | null
  | arr (xs : List Json)
  | obj (fields : List (String × Json))

/-- serde_json Value::get for object keys. -/
def Json.get : Json → String → Option Json
  | .obj fields, k => lookupA fields k
  | _, _ => none

/-- serde_json Value::as_str. -/
def Json.asStr : Json → Option String
  | .str s => some s
  | _ => none

/-- serde_json Value::as_array. -/
def Json.asArray : Json → Option (List Json)
  | .arr xs => some xs
  | _ => none

/-- serde_json Value::as_object (field order models map iteration). -/
def Json.asObject : Json → Option (List (String × Json))
  | .obj fields => some fields
  | _ => none

/-- Rust str::eq_ignore_ascii_case. -/
def eqIgnoreAsciiCase (a b : String) : Bool :=
  lowerStr a == lowerStr b

/-- parse_stdio_like from discovery.rs: requires a string command; args and
env are collected best-effort; the placeholder origin is overwritten by the
callers. -/
def parse_stdio_like (key : String) (v : Json) : Option NormalizedMcpServer :=
  match (v.get "command").bind Json.asStr with
  | none => none
  | some command =>
      let args : List String :=
        (((v.get "args").bind Json.asArray).map
          (fun arr => arr.filterMap Json.asStr)).getD []
      let env : List (String × String) :=
        (((v.get "env").bind Json.asObject).map
          (fun m => m.filterMap
            (fun e => (Json.asStr e.2).map (fun s => (e.1, s))))).getD []
      some { key := key,
             transport := McpTransport.stdio command args env,
             origin := { provider := McpProvider.claude } }

/-- parse_claude_server from discovery.rs: reject http-typed and url-bearing
entries, else parse as stdio. -/
def parse_claude_server (key : String) (v : Json) :
    Option NormalizedMcpServer :=
  if (((v.get "type").bind Json.asStr).map
      (fun t => eqIgnoreAsciiCase t "http")).getD false then none
  else if (v.get "url").isSome then none
  else parse_stdio_like key v

/-- Origin stamped on VSCode entries. -/
def vscOrigin (path : String) : McpServerOrigin :=
  { provider := McpProvider.vscode, path := some path,
    note := some ".vscode/mcp.json" }

/-- Origin stamped on Cursor entries. -/
def curOrigin (path : String) : McpServerOrigin :=
  { provider := McpProvider.cursor, path := some path,
    note := some "~/.cursor/mcp.json" }

/-- Per-entry step of merge_vscode_mcp: parsed entries are inserted with
overwrite. -/
def vsEntryStep (path : String)
    (out : List (String × NormalizedMcpServer)) (e : String × Json) :
    List (String × NormalizedMcpServer) :=
  match parse_stdio_like e.1 e.2 with
  | some srv => insertA out srv.key { srv with origin := vscOrigin path }
  | none => out

/-- merge_vscode_mcp from discovery.rs: prefer the servers key, fall back
to mcpServers, insert each parsed stdio entry with overwrite. -/
def merge_vscode_mcp (path : String) (v : Json)
    (out : List (String × NormalizedMcpServer)) :
    List (String × NormalizedMcpServer) :=
  match ((v.get "servers").bind Json.asObject).orElse
      (fun _ => (v.get "mcpServers").bind Json.asObject) with
  | none => out
  | some m => m.foldl (vsEntryStep path) out

/-- Per-entry step of merge_cursor_mcp: parsed entries fill only
previously-missing keys. -/
def curEntryStep (path : String)
    (out : List (String × NormalizedMcpServer)) (e : String × Json) :
    List (String × NormalizedMcpServer) :=
  match parse_claude_server e.1 e.2 with
  | some srv =>
      insertIfAbsent out srv.key { srv with origin := curOrigin path }
  | none => out

/-- merge_cursor_mcp from discovery.rs. -/
def merge_cursor_mcp (path : String) (v : Json)
    (out : List (String × NormalizedMcpServer)) :
    List (String × NormalizedMcpServer) :=
  match (v.get "mcpServers").bind Json.asObject with
  | none => out
  | some m => m.foldl (curEntryStep path) out

/-- merge_claude_project from discovery.rs. -/
def merge_claude_project (path : String) (v : Json)
    (out : List (String × NormalizedMcpServer)) :
    List (String × NormalizedMcpServer) :=
  match (v.get "mcpServers").bind Json.asObject with
  | none => out
  | some m =>
      m.foldl (fun acc e =>
        match parse_stdio_like e.1 e.2 with
        | some srv => insertA acc srv.key { srv with origin :=
            { provider := McpProvider.claude, path := some path,
              note := some ".mcp.json" } }
        | none => acc) out

/-- merge_claude_user from discovery.rs: project-scoped entries first
(insert-overwrite into a fresh map, then enabled/disabled filters), then
user-global entries fill the gaps, and the result extends the output map
with overwrite.  wsKey is the canonicalized workspace path used for the
projects lookup. -/
def merge_claude_user (path : String) (v : Json) (wsKey : String)
    (out : List (String × NormalizedMcpServer)) :
    List (String × NormalizedMcpServer) :=
  let merged : List (String × NormalizedMcpServer) :=
    match (v.get "projects").bind Json.asObject with
    | none => []
    | some projects =>
        match (lookupA projects wsKey).bind Json.asObject with
        | none => []
        | some proj =>
            let base : List (String × NormalizedMcpServer) :=
              match (lookupA proj "mcpServers").bind Json.asObject with
              | none => []
              | some m =>
                  m.foldl (fun acc e =>
                    match parse_claude_server e.1 e.2 with
                    | some srv => insertA acc srv.key { srv with origin :=
                        { provider := McpProvider.claude, path := some path,
                          note := some ("~/.claude.json project: " ++ wsKey) } }
                    | none => acc) []
            let enabled : Option (List String) :=
              ((lookupA proj "enabledMcpjsonServers").bind Json.asArray).map
                (fun arr => arr.filterMap Json.asStr)
            let disabled : List String :=
              (((lookupA proj "disabledMcpjsonServers").bind
                Json.asArray).map
                (fun arr => arr.filterMap Json.asStr)).getD []
            let base1 := match enabled with
              | some allow =>
                  base.filter (fun e =>
                    allow.any (fun a => eqIgnoreAsciiCase a e.1))
              | none => base
            if disabled.isEmpty then base1
            else base1.filter (fun e => !(disabled.contains e.1))
  let merged2 : List (String × NormalizedMcpServer) :=
    match (v.get "mcpServers").bind Json.asObject with
    | none => merged
    | some m =>
        m.foldl (fun acc e =>
          match parse_claude_server e.1 e.2 with
          | some srv => insertIfAbsent acc srv.key { srv with origin :=
              { provider := McpProvider.claude, path := some path,
                note := some "~/.claude.json global" } }
          | none => acc) merged
  merged2.foldl (fun o e => insertA o e.1 e.2) out

/-- discover_stdio_servers from discovery.rs, over the parsed contents of
the four config files (none models a missing/unreadable/unparsable file).
Merge order: Claude project, Claude user, VSCode project, VSCode user,
Cursor. -/
def discover_stdio_servers
    (claudeProject claudeUser vscodeProject vscodeUser cursorUser :
      Option Json) (wsKey : String) : List (String × NormalizedMcpServer) :=
  let m0 : List (String × NormalizedMcpServer) := []
  let m1 := match claudeProject with
    | some v => merge_claude_project "<workspace>/.mcp.json" v m0
    | none => m0
  let m2 := match claudeUser with
    | some v => merge_claude_user "~/.claude.json" v wsKey m1
    | none => m1
  let m3 := match vscodeProject with
    | some v => merge_vscode_mcp "<workspace>/.vscode/mcp.json" v m2
    | none => m2
  let m4 := match vscodeUser with
    | some v => merge_vscode_mcp "<vscode-user>/mcp.json" v m3
    | none => m3
  match cursorUser with
  | some v => merge_cursor_mcp "~/.cursor/mcp.json" v m4
  | none => m4

/-- The last entry of a VSCode server map with a given key that parses as
stdio (later entries overwrite earlier ones). -/
def lastVscodeParsed (path : String) :
    List (String × Json) → String → Option NormalizedMcpServer
  | [], _ => none
  | e :: rest, k =>
      match lastVscodeParsed path rest k with
      | some s => some s
      | none =>
          if e.1 = k then
            (parse_stdio_like e.1 e.2).map
              (fun srv => { srv with origin := vscOrigin path })
          else none

/-- The first entry of a Cursor server map with a given key that parses
(earlier entries win under insert-if-absent). -/
def firstCursorParsed (path : String) :
    List (String × Json) → String → Option NormalizedMcpServer
  | [], _ => none
  | e :: rest, k =>
      match (if e.1 = k then
          (parse_claude_server e.1 e.2).map
            (fun srv => { srv with origin := curOrigin path })
        else none) with
      | some s => some s
      | none => firstCursorParsed path rest k

theorem parse_stdio_like_key {k : String} {v : Json}
    {srv : NormalizedMcpServer} (h : parse_stdio_like k v = some srv) :
    srv.key = k := by
  unfold parse_stdio_like at h
  split at h
  · cases h
  · injection h with h
    rw [← h]

theorem parse_claude_server_key {k : String} {v : Json}
    {srv : NormalizedMcpServer} (h : parse_claude_server k v = some srv) :
    srv.key = k := by
  unfold parse_claude_server at h
  split at h
  · cases h
  · split at h
    · cases h
    · exact parse_stdio_like_key h

theorem mergeVsFold_lookup (path : String) (entries : List (String × Json)) :
    ∀ (out : List (String × NormalizedMcpServer)) (k : String),
      lookupA (entries.foldl (vsEntryStep path) out) k =
        match lastVscodeParsed path entries k with
        | some srv => some srv
        | none => lookupA out k := by
  induction entries with
  | nil => intro out k; rfl
  | cons e rest ih =>
      intro out k
      simp only [List.foldl_cons]
      rw [ih]
      cases hrest : lastVscodeParsed path rest k with
      | some s => simp only [lastVscodeParsed, hrest]
      | none =>
          simp only [lastVscodeParsed, hrest]
          unfold vsEntryStep
          cases hp : parse_stdio_like e.1 e.2 with
          | none =>
              by_cases hk : e.1 = k
              · simp [hp, if_pos hk]
              · simp [hp, if_neg hk]
          | some srv =>
              have hkey := parse_stdio_like_key hp
              rw [lookupA_insertA, hkey]
              by_cases hk : e.1 = k
              · simp [hp, if_pos hk, hkey]
              · simp [hp, if_neg hk]

theorem mergeCurFold_lookup (path : String) (entries : List (String × Json)) :
    ∀ (out : List (String × NormalizedMcpServer)) (k : String),
      lookupA (entries.foldl (curEntryStep path) out) k =
        match lookupA out k with
        | some srv => some srv
        | none => firstCursorParsed path entries k := by
  induction entries with
  | nil =>
      intro out k
      show lookupA out k = match lookupA out k with
        | some srv => some srv
        | none => firstCursorParsed path [] k
      cases lookupA out k <;> rfl
  | cons e rest ih =>
      intro out k
      simp only [List.foldl_cons]
      rw [ih]
      unfold curEntryStep
      cases hp : parse_claude_server e.1 e.2 with
      | none =>
          simp only [firstCursorParsed, hp]
          by_cases hk : e.1 = k
          · simp [if_pos hk]
          · simp [if_neg hk]
      | some srv =>
          have hkey := parse_claude_server_key hp
          rw [lookupA_insertIfAbsent, hkey]
          simp only [firstCursorParsed, hp]
          cases hout : lookupA out k with
          | some w => rfl
          | none =>
              by_cases hk : e.1 = k
              · simp [if_pos hk, hkey]
              · simp [if_neg hk]

/-- Claude user file defining memory with command A (global scope). -/
def claudeUserMemA : Json :=
  Json.obj [("mcpServers",
    Json.obj [("memory", Json.obj [("command", Json.str "A")])])]

/-- Project .vscode/mcp.json defining memory with command B. -/
def vscodeMemB : Json :=
  Json.obj [("servers",
    Json.obj [("memory", Json.obj [("command", Json.str "B")])])]

/-- The expected discovery result for memory: command B with VSCode
origin. -/
def memoryB : NormalizedMcpServer :=
  { key := "memory",
    transport := McpTransport.stdio "B" [] [],
    origin := vscOrigin "<workspace>/.vscode/mcp.json" }

/-- C9: a parsed VSCode entry overwrites any previously merged entry of the
same key (the result at k is the last parsed VSCode entry for k, falling
back to the prior map), a Cursor entry is inserted only when the key is
absent (the prior map wins, else the first parsed Cursor entry), and in
the concrete scenario — Claude user file maps memory to command A, project
.vscode/mcp.json maps memory to command B — discovery yields memory with
command B. -/
theorem C9_discovery_precedence :
    (∀ (path : String) (entries : List (String × Json))
        (out : List (String × NormalizedMcpServer)) (k : String),
      lookupA (merge_vscode_mcp path (Json.obj [("servers",
          Json.obj entries)]) out) k =
        match lastVscodeParsed path entries k with
        | some srv => some srv
        | none => lookupA out k) ∧
    (∀ (path : String) (entries : List (String × Json))
        (out : List (String × NormalizedMcpServer)) (k : String),
      lookupA (merge_cursor_mcp path (Json.obj [("mcpServers",
          Json.obj entries)]) out) k =
        match lookupA out k with
        | some srv => some srv
        | none => firstCursorParsed path entries k) ∧
    lookupA (discover_stdio_servers none (some claudeUserMemA)
      (some vscodeMemB) none none "/ws") "memory" = some memoryB := by
  refine ⟨?_, ?_, ?_⟩
  · intro path entries out k
    exact mergeVsFold_lookup path entries out k
  · intro path entries out k
    exact mergeCurFold_lookup path entries out k
  · rfl

/-! ## Driver adapter event fold (codex_runner.rs, exec_task)

The event loop of InprocCodexRunner::exec_task is modelled as a fold over
the received items, each being the next driver event or a receive error.
All codex event kinds that only produce log lines (task started, agent
message, reasoning, exec begin/end, patch apply, MCP tool calls, web
search, token counts, plan updates, aborts, session configured, history
and list responses, and the catch-all arm) are collapsed into otherLogged,
since none of them touches ok or the output buffers. -/

/-- Driver events distinguished by the adapter fold. -/
inductive EventMsg
  | taskComplete (last_agent_message : Option String)
  | shutdownComplete
  | errorEvent (msg : String)
  | streamError (msg : String)
  | backgroundEvent (msg : String)
  | otherLogged
deriving DecidableEq

/-- CodexRunOutput from codex_runner.rs. -/
structure CodexRunOutput where
  ok : Bool
  status : Int
  stdout : String
  stderr : String
deriving DecidableEq

/-- The drain loop of exec_task: process events in order, appending
TaskComplete messages (newline-terminated) to stdout and error, stream
error and background texts to stderr; break with ok on ShutdownComplete,
break without ok on a receive error (after noting it in stderr).  A
stream that ends without either break means the loop is still waiting:
none.  On TaskComplete the source also submits a Shutdown op to the
driver; that side effect shapes the stream itself and has no effect on
the folded result. -/
def drainEvents (ok : Bool) (stdout_buf stderr_buf : String) :
    List (Except String EventMsg) → Option (Bool × String × String)
  | [] => none
  | Except.error e :: _ =>
      some (ok, stdout_buf,
        stderr_buf ++ "error receiving event: " ++ e ++ "\n")
  | Except.ok msg :: rest =>
      match msg with
      | .taskComplete lam =>
          match lam with
          | some m =>
              drainEvents ok (stdout_buf ++ m ++ "\n") stderr_buf rest
          | none => drainEvents ok stdout_buf stderr_buf rest
      | .shutdownComplete => some (true, stdout_buf, stderr_buf)
      | .errorEvent m =>
          drainEvents ok stdout_buf
            (stderr_buf ++ "error: " ++ m ++ "\n") rest
      | .streamError m =>
          drainEvents ok stdout_buf
            (stderr_buf ++ "stream_error: " ++ m ++ "\n") rest
      | .backgroundEvent m =>
          drainEvents ok stdout_buf (stderr_buf ++ m ++ "\n") rest
      | .otherLogged => drainEvents ok stdout_buf stderr_buf rest

/-- The event-stream portion of exec_task: drain from empty buffers with
ok initially false, then assemble CodexRunOutput with status 0 on ok and
1 otherwise. -/
def foldDriverEvents (evs : List (Except String EventMsg)) :
    Option CodexRunOutput :=
  (drainEvents false "" "" evs).map (fun r =>
    { ok := r.1, status := if r.1 then 0 else 1,
      stdout := r.2.1, stderr := r.2.2 })

/-- The events the loop processes before it breaks, together with the stop
reason: none for ShutdownComplete, some e for a receive error e. -/
def stopInfo : List (Except String EventMsg) →
    Option (List EventMsg × Option String)
  | [] => none
  | Except.error e :: _ => some ([], some e)
  | Except.ok EventMsg.shutdownComplete :: _ => some ([], none)
  | Except.ok m :: rest =>
      (stopInfo rest).map (fun r => (m :: r.1, r.2))

/-- Concatenation of a list of strings, in order. -/
def concatList : List String → String
  | [] => ""
  | s :: rest => s ++ concatList rest

/-- The concatenation, in order, of the TaskComplete payloads that carried
a message, each newline-terminated. -/
def stdoutOf (ms : List EventMsg) : String :=
  concatList (ms.filterMap (fun m =>
    match m with
    | .taskComplete (some s) => some (s ++ "\n")
    | _ => none))

/-- The stderr line an event contributes, if any. -/
def stderrContribution : EventMsg → Option String
  | .errorEvent m => some ("error: " ++ m ++ "\n")
  | .streamError m => some ("stream_error: " ++ m ++ "\n")
  | .backgroundEvent m => some (m ++ "\n")
  | _ => none

/-- Full stderr: contributions of processed events, then the receive-error
note when the loop stopped on one. -/
def stderrOf (ms : List EventMsg) (stop : Option String) : String :=
  concatList (ms.filterMap stderrContribution) ++
    (match stop with
     | some e => "error receiving event: " ++ e ++ "\n"
     | none => "")

theorem drainEvents_spec (evs : List (Except String EventMsg)) :
    ∀ ok so se,
      drainEvents ok so se evs =
        (stopInfo evs).map (fun r =>
          ((if r.2 = none then true else ok),
           so ++ stdoutOf r.1, se ++ stderrOf r.1 r.2)) := by
  induction evs with
  | nil => intro ok so se; rfl
  | cons ev rest ih =>
      intro ok so se
      cases ev with
      | error e =>
          simp [drainEvents, stopInfo, stdoutOf, stderrOf, concatList,
            String.append_assoc]
      | ok msg =>
          cases msg with
          | taskComplete lam =>
              cases lam with
              | some m =>
                  rw [show drainEvents ok so se
                      (Except.ok (EventMsg.taskComplete (some m)) :: rest) =
                      drainEvents ok (so ++ m ++ "\n") se rest from rfl]
                  rw [ih]
                  cases hrest : stopInfo rest with
                  | none => simp [stopInfo, hrest]
                  | some r =>
                      simp [stopInfo, hrest, stdoutOf, stderrOf,
                        stderrContribution, concatList, List.filterMap_cons,
                        String.append_assoc]
              | none =>
                  rw [show drainEvents ok so se
                      (Except.ok (EventMsg.taskComplete none) :: rest) =
                      drainEvents ok so se rest from rfl]
                  rw [ih]
                  cases hrest : stopInfo rest with
                  | none => simp [stopInfo, hrest]
                  | some r =>
                      simp [stopInfo, hrest, stdoutOf, stderrOf,
                        stderrContribution, concatList, List.filterMap_cons]
          | shutdownComplete =>
              simp [drainEvents, stopInfo, stdoutOf, stderrOf, concatList]
          | errorEvent m =>
              rw [show drainEvents ok so se
                  (Except.ok (EventMsg.errorEvent m) :: rest) =
                  drainEvents ok so (se ++ "error: " ++ m ++ "\n") rest
                  from rfl]
              rw [ih]
              cases hrest : stopInfo rest with
              | none => simp [stopInfo, hrest]
              | some r =>
                  simp [stopInfo, hrest, stdoutOf, stderrOf,
                    stderrContribution, concatList, List.filterMap_cons,
                    String.append_assoc]
          | streamError m =>
              rw [show drainEvents ok so se
                  (Except.ok (EventMsg.streamError m) :: rest) =
                  drainEvents ok so (se ++ "stream_error: " ++ m ++ "\n") rest
                  from rfl]
              rw [ih]
              cases hrest : stopInfo rest with
              | none => simp [stopInfo, hrest]
              | some r =>
                  simp [stopInfo, hrest, stdoutOf, stderrOf,
                    stderrContribution, concatList, List.filterMap_cons,
                    String.append_assoc]
          | backgroundEvent m =>
              rw [show drainEvents ok so se
                  (Except.ok (EventMsg.backgroundEvent m) :: rest) =
                  drainEvents ok so (se ++ m ++ "\n") rest from rfl]
              rw [ih]
              cases hrest : stopInfo rest with
              | none => simp [stopInfo, hrest]
              | some r =>
                  simp [stopInfo, hrest, stdoutOf, stderrOf,
                    stderrContribution, concatList, List.filterMap_cons,
                    String.append_assoc]
          | otherLogged =>
              rw [show drainEvents ok so se
                  (Except.ok EventMsg.otherLogged :: rest) =
                  drainEvents ok so se rest from rfl]
              rw [ih]
              cases hrest : stopInfo rest with
              | none => simp [stopInfo, hrest]
              | some r =>
                  simp [stopInfo, hrest, stdoutOf, stderrOf,
                    stderrContribution, concatList, List.filterMap_cons]

theorem stopInfo_none_shutdown {evs : List (Except String EventMsg)}
    {ms : List EventMsg}
    (h : stopInfo evs = some (ms, none)) :
    Except.ok EventMsg.shutdownComplete ∈ evs := by
  induction evs generalizing ms with
  | nil => cases h
  | cons ev rest ih =>
      cases ev with
      | error e =>
          simp [stopInfo] at h
      | ok msg =>
          cases msg
          case shutdownComplete => exact List.mem_cons_self _ _
          all_goals
            simp only [stopInfo, Option.map_eq_some'] at h
            obtain ⟨⟨r1, r2⟩, hr, heq⟩ := h
            rw [Prod.ext_iff] at heq
            obtain ⟨h1, h2⟩ := heq
            simp only at h2
            rw [h2] at hr
            exact List.mem_cons_of_mem _ (ih hr)

/-- C3: whenever the adapter fold returns (the stream reached
ShutdownComplete or a receive error), ok is true exactly when the stop was
ShutdownComplete — so ok is true only when a ShutdownComplete event was
received; status is 0 when ok and 1 otherwise; stdout is the in-order
concatenation of the TaskComplete payloads that carried a message, each
newline-terminated; stderr collects error, stream-error and background
lines from the processed prefix, which extends past Error and StreamError
events — they neither terminate the loop nor fail the call. -/
theorem C3_exec_task_event_fold (evs : List (Except String EventMsg))
    (out : CodexRunOutput) (h : foldDriverEvents evs = some out) :
    ∃ ms stop, stopInfo evs = some (ms, stop) ∧
      (out.ok = true ↔ stop = none) ∧
      (out.ok = true → Except.ok EventMsg.shutdownComplete ∈ evs) ∧
      out.status = (if out.ok = true then 0 else 1) ∧
      out.stdout = stdoutOf ms ∧
      out.stderr = stderrOf ms stop := by
  unfold foldDriverEvents at h
  rw [drainEvents_spec] at h
  cases hstop : stopInfo evs with
  | none => rw [hstop] at h; cases h
  | some r =>
      obtain ⟨ms, stop⟩ := r
      rw [hstop] at h
      simp only [Option.map_some', Option.some.injEq] at h
      refine ⟨ms, stop, rfl, ?_, ?_, ?_, ?_, ?_⟩
      · rw [← h]
        cases stop with
        | none => simp
        | some e => simp
      · intro hok
        exact stopInfo_none_shutdown (by
          rw [hstop]
          rw [← h] at hok
          cases stop with
          | none => rfl
          | some e => simp at hok)
      · rw [← h]
      · rw [← h]
        show ("" : String) ++ stdoutOf ms = stdoutOf ms
        cases hso : stdoutOf ms
        rfl
      · rw [← h]
        show ("" : String) ++ stderrOf ms stop = stderrOf ms stop
        cases hse : stderrOf ms stop
        rfl

/-- Concrete stream for the C3 witness: a logged-only event, a completed
task with message hi, then a clean shutdown. -/
def c3events : List (Except String EventMsg) :=
  [Except.ok EventMsg.otherLogged,
   Except.ok (EventMsg.taskComplete (some "hi")),
   Except.ok EventMsg.shutdownComplete]

theorem C3_exec_task_event_fold_witness :
    ∃ ms stop, stopInfo c3events = some (ms, stop) ∧
      (({ ok := true, status := 0, stdout := "hi\n", stderr := "" } :
          CodexRunOutput).ok = true ↔ stop = none) ∧
      (({ ok := true, status := 0, stdout := "hi\n", stderr := "" } :
          CodexRunOutput).ok = true →
        Except.ok EventMsg.shutdownComplete ∈ c3events) ∧
      ({ ok := true, status := 0, stdout := "hi\n", stderr := "" } :
          CodexRunOutput).status =
        (if ({ ok := true, status := 0, stdout := "hi\n", stderr := "" } :
          CodexRunOutput).ok = true then 0 else 1) ∧
      ({ ok := true, status := 0, stdout := "hi\n", stderr := "" } :
          CodexRunOutput).stdout = stdoutOf ms ∧
      ({ ok := true, status := 0, stdout := "hi\n", stderr := "" } :
          CodexRunOutput).stderr = stderrOf ms stop :=
  C3_exec_task_event_fold c3events
    { ok := true, status := 0, stdout := "hi\n", stderr := "" } (by decide)

/-! ## Handler call_tool routing (handler.rs) and adapter cwd check
(codex_runner.rs) -/

/-- RPC error kinds relevant to call_tool routing. -/
inductive RpcErrorKind
  | methodNotFound
  | internalError
  | invalidParams
deriving DecidableEq

/-- Outcome of the argument-validation phase of a call_tool request:
either an RPC error reply or the invocation handed to the codex runner
(so a rpcError outcome means the driver adapter is never invoked). -/
inductive CallRoute
  | rpcError (kind : RpcErrorKind) (msg : String)
  | invoke (agent : PreparedAgent) (task cwd : String)

/-- Unix model of std Path::is_absolute: the path has a root. -/
def isAbsolutePath (p : String) : Bool :=
  match p.data with
  | [] => false
  | c :: _ => c = '/'

/-- Extract a string argument, as the handler does:
arguments.as_ref().and_then(get).and_then(as_str). -/
def getStrArg (args : Option (List (String × Json))) (k : String) :
    Option String :=
  (args.bind (fun m => lookupA m k)).bind Json.asStr

/-- The call_tool branch of AgentsServerHandler::handle_request, up to the
runner invocation: unknown tool, missing task, missing cwd, then the
absolute-cwd check.  The quote character in the replicated error texts is
written as an escape. -/
def handle_call_tool (agents_by_tool : List (String × PreparedAgent))
    (tool : String) (args : Option (List (String × Json))) : CallRoute :=
  match lookupA agents_by_tool tool with
  | none =>
      CallRoute.rpcError RpcErrorKind.methodNotFound
        ("Unknown tool \x27" ++ tool ++ "\x27")
  | some ra =>
      match getStrArg args "task" with
      | none =>
          CallRoute.rpcError RpcErrorKind.internalError
            "missing required \x27task\x27 string"
      | some task =>
          match getStrArg args "cwd" with
          | none =>
              CallRoute.rpcError RpcErrorKind.internalError
                "missing required \x27cwd\x27 string"
          | some cwd =>
              if !(isAbsolutePath cwd) then
                CallRoute.rpcError RpcErrorKind.invalidParams
                  ("invalid \x27cwd\x27: got \x27" ++ cwd ++
                   "\x27, expected an absolute path")
              else CallRoute.invoke ra task cwd

/-- The cwd validation of InprocCodexRunner::exec_task: an empty or
non-absolute cwd fails the call. -/
def execTaskCwdCheck (cwd : String) : Except String String :=
  if cwd = "" ∨ ¬ (isAbsolutePath cwd = true) then
    Except.error "cwd must be an absolute path"
  else Except.ok cwd

/-- Registered agent used by the C4 counterexample and witness. -/
def sampleAgentT : PreparedAgent :=
  { tool_name := "t", name := "Sample", description := "d",
    provider := AgentVariant.codex }

/-- C4 (counterexample): a call to a registered tool whose cwd argument is
the non-absolute string rel but whose task argument is missing is answered
with the internal error for the missing task field, not with
InvalidParams, because the handler extracts task before cwd.  (The driver
is still not invoked.) -/
theorem C4_cwd_counterexample :
    handle_call_tool [("t", sampleAgentT)] "t"
        (some [("cwd", Json.str "rel")]) =
      CallRoute.rpcError RpcErrorKind.internalError
        "missing required \x27task\x27 string" ∧
    ∀ m, handle_call_tool [("t", sampleAgentT)] "t"
        (some [("cwd", Json.str "rel")]) ≠
      CallRoute.rpcError RpcErrorKind.invalidParams m := by
  refine ⟨rfl, ?_⟩
  intro m h
  have h2 : CallRoute.rpcError RpcErrorKind.internalError
      "missing required \x27task\x27 string" =
      CallRoute.rpcError RpcErrorKind.invalidParams m := h
  injection h2 with hk hm
  exact RpcErrorKind.noConfusion hk

/-- C4 (amended): for a call_tool request addressed to a registered tool
whose task argument is a string and whose cwd argument is a string that is
not an absolute path, the handler replies InvalidParams and the driver
adapter is never invoked; independently, the adapter itself fails with
"cwd must be an absolute path" for any empty or non-absolute cwd. -/
theorem C4_cwd_rejection (agents : List (String × PreparedAgent))
    (tool : String) (args : Option (List (String × Json)))
    (ra : PreparedAgent) (task cwd : String)
    (hra : lookupA agents tool = some ra)
    (htask : getStrArg args "task" = some task)
    (hcwd : getStrArg args "cwd" = some cwd)
    (habs : isAbsolutePath cwd = false) :
    handle_call_tool agents tool args =
      CallRoute.rpcError RpcErrorKind.invalidParams
        ("invalid \x27cwd\x27: got \x27" ++ cwd ++
         "\x27, expected an absolute path") ∧
    (∀ a t c, handle_call_tool agents tool args ≠ CallRoute.invoke a t c) ∧
    (∀ c, c = "" ∨ isAbsolutePath c = false →
      execTaskCwdCheck c = Except.error "cwd must be an absolute path") := by
  have hmain : handle_call_tool agents tool args =
      CallRoute.rpcError RpcErrorKind.invalidParams
        ("invalid \x27cwd\x27: got \x27" ++ cwd ++
         "\x27, expected an absolute path") := by
    unfold handle_call_tool
    simp only [hra, htask, hcwd]
    rw [if_pos (by rw [habs]; rfl)]
  refine ⟨hmain, ?_, ?_⟩
  · intro a t c h
    rw [hmain] at h
    exact CallRoute.noConfusion h
  · intro c hc
    unfold execTaskCwdCheck
    rw [if_pos (by
      rcases hc with hc | hc
      · exact Or.inl hc
      · exact Or.inr (by rw [hc]; simp))]

theorem C4_cwd_rejection_witness :
    handle_call_tool [("t", sampleAgentT)] "t"
        (some [("task", Json.str "hello"), ("cwd", Json.str "rel")]) =
      CallRoute.rpcError RpcErrorKind.invalidParams
        ("invalid \x27cwd\x27: got \x27rel\x27, expected an absolute path") ∧
    execTaskCwdCheck "rel" = Except.error "cwd must be an absolute path" := by
  have h := C4_cwd_rejection [("t", sampleAgentT)] "t"
    (some [("task", Json.str "hello"), ("cwd", Json.str "rel")])
    sampleAgentT "hello" "rel" rfl rfl rfl (by decide)
  exact ⟨h.1, h.2.2 "rel" (Or.inr (by decide))⟩

/-! ## Parsers (parser/anthropic_frontmatter.rs, parser/vscode_chatmode.rs,
parser/codex_toml.rs) and instruction resolution (loader.rs)

The serde_yaml and toml deserializers are external; they enter as oracle
parameters (none models a deserialization failure).  Everything around
them — line splitting, frontmatter framing, body extraction, trimming,
field assembly — is modelled from the source. -/

/-- Split a character list at every delimiter (the pieces between
delimiters, empties included), as Rust str::split does. -/
def splitBy (p : Char → Bool) : List Char → List (List Char)
  | [] => [[]]
  | c :: rest =>
      if p c then [] :: splitBy p rest
      else
        match splitBy p rest with
        | l :: ls => (c :: l) :: ls
        | [] => [[c]]

/-- Strip one trailing carriage return (for \r\n line endings). -/
def stripTrailingCr (l : List Char) : List Char :=
  match l.getLast? with
  | some '\r' => l.dropLast
  | _ => l

/-- Rust str::lines: split at newlines, strip a trailing \r from each
terminated line, and drop the final empty piece left by a trailing
newline (the empty string yields no lines). -/
def rustLines (s : String) : List String :=
  let parts := splitBy (fun c => c = '\n') s.data
  let body := parts.dropLast.map (fun l => (⟨stripTrailingCr l⟩ : String))
  match parts.getLast? with
  | some [] => body
  | some l => body ++ [(⟨l⟩ : String)]
  | none => body

/-- ToolsField from the frontmatter parsers. -/
inductive ToolsField
  | list (v : List String)
  | single (s : String)
  | empty

/-- ToolsField::into_vec: keep a non-empty list; split a string on commas
and whitespace, trimming pieces and dropping blank ones. -/
def ToolsField.into_vec : ToolsField → Option (List String)
  | .list v => if v.isEmpty then none else some v
  | .single s =>
      let v := (((splitBy (fun c => c = ',' || isWs c) s.data).map
          (fun l => (⟨l⟩ : String))).filter
          (fun t => !((rustTrim t).isEmpty))).map rustTrim
      if v.isEmpty then none else some v
  | .empty => none

/-- ToolsField::into_vec_commas_only: split a string on commas only so
multi-word tags survive. -/
def ToolsField.into_vec_commas_only : ToolsField → Option (List String)
  | .list v => if v.isEmpty then none else some v
  | .single s =>
      let v := (((splitBy (fun c => c = ',') s.data).map
          (fun l => (⟨l⟩ : String))).map rustTrim).filter
          (fun t => !(t.isEmpty))
      if v.isEmpty then none else some v
  | .empty => none

/-- The YAML frontmatter fields of an .agent.md file. -/
structure Frontmatter where
  name : String
  description : String := ""
  tools : ToolsField := ToolsField.empty
  tags : ToolsField := ToolsField.empty
  model : Option String := none
  model_provider : Option String := none

/-- The frontmatter framing shared verbatim by the Anthropic and VSCode
parsers: the first non-empty line must be ---, lines up to the next ---
form the YAML buffer (each newline-terminated), the rest joined with
newlines is the body. -/
def splitFrontmatter (content : String) : Except String (String × String) :=
  let lines := rustLines content
  match lines.findIdx? (fun l => !((rustTrim l).isEmpty)) with
  | none => Except.error "empty file"
  | some start_idx =>
      if rustTrim (lines.getD start_idx "") ≠ "---" then
        Except.error "missing frontmatter --- at start"
      else
        let after := lines.drop (start_idx + 1)
        match after.findIdx? (fun l => rustTrim l == "---") with
        | none => Except.error "unterminated frontmatter"
        | some j =>
            let yaml_buf := concatList ((after.take j).map (fun l => l ++ "\n"))
            let body := String.intercalate "\n" (after.drop (j + 1))
            Except.ok (yaml_buf, body)

/-- AnthropicFrontmatterParser::parse, with serde_yaml as an oracle from
the YAML buffer to the frontmatter fields. -/
def anthropic_parse (yaml : String → Option Frontmatter) (content : String) :
    Except String AgentConfig :=
  match splitFrontmatter content with
  | Except.error e => Except.error e
  | Except.ok (yaml_buf, body) =>
      match yaml yaml_buf with
      | none => Except.error "invalid YAML frontmatter"
      | some fm =>
          let tags := fm.tags.into_vec_commas_only
          let refs := fm.tools.into_vec.map
            (fun v => v.map (fun t => McpToolRef.bare t))
          let run : Option AgentRun :=
            if fm.model.isSome || fm.model_provider.isSome then
              some { model := fm.model, model_provider := fm.model_provider }
            else none
          Except.ok
            { name := fm.name, description := fm.description,
              tags := tags, toggles := none, mcp_tool_refs := refs,
              instructions_file := none,
              instructions := some (rustTrim body),
              run := run, mcp_servers := none }

/-- The YAML frontmatter fields of a .chatmode.md file. -/
structure VsFrontmatter where
  name : Option String := none
  description : String
  tools : ToolsField := ToolsField.empty
  model : Option String := none
  model_provider : Option String := none
  tags : ToolsField := ToolsField.empty

/-- Rust str::split_once("::"), on characters. -/
def splitOnDoubleColon : List Char → Option (List Char × List Char)
  | [] => none
  | ':' :: ':' :: rest => some ([], rest)
  | c :: rest =>
      (splitOnDoubleColon rest).map (fun r => (c :: r.1, r.2))

/-- parse_vscode_tool_ref: server::tool becomes a namespaced ref,
anything else a bare ref, trimmed. -/
def parse_vscode_tool_ref (s : String) : McpToolRef :=
  match splitOnDoubleColon s.data with
  | some r =>
      McpToolRef.namespaced (rustTrim (⟨r.1⟩ : String))
        (rustTrim (⟨r.2⟩ : String))
  | none => McpToolRef.bare (rustTrim s)

/-- Drop a suffix from a string when present (Rust str::strip_suffix with
unwrap_or fallback). -/
def stripSuffixStr (s suf : String) : String :=
  if suf.data.isSuffixOf s.data then
    (⟨s.data.take (s.data.length - suf.data.length)⟩ : String)
  else s

/-- derive_name_from_filename: the file stem with a trailing .chatmode
stripped (the stem is passed in; paths are external). -/
def derive_name_from_filename (stem : String) : String :=
  stripSuffixStr stem ".chatmode"

/-- VscodeChatmodeParser::parse, with serde_yaml as an oracle and the file
stem passed in. -/
def vscode_parse (yaml : String → Option VsFrontmatter) (stem : String)
    (content : String) : Except String AgentConfig :=
  match splitFrontmatter content with
  | Except.error e => Except.error e
  | Except.ok (yaml_buf, body) =>
      match yaml yaml_buf with
      | none => Except.error "invalid YAML frontmatter"
      | some fm =>
          let name := fm.name.getD (derive_name_from_filename stem)
          let refs := fm.tools.into_vec.map
            (fun v => v.map parse_vscode_tool_ref)
          let run : Option AgentRun :=
            if fm.model.isSome || fm.model_provider.isSome then
              some { model := fm.model, model_provider := fm.model_provider }
            else none
          Except.ok
            { name := name, description := fm.description,
              tags := fm.tags.into_vec, toggles := none,
              mcp_tool_refs := refs,
              instructions_file := none,
              instructions := some (rustTrim body),
              run := run, mcp_servers := none }

/-- toml Value::as_str. -/
def Toml.asStr : Toml → Option String
  | .str s => some s
  | _ => none

/-- map_tools_to_toggles from codex_toml.rs. -/
def map_tools_to_toggles (list : List String) : AgentTogglePolicy :=
  let has := fun needle => list.any (fun s => eqIgnoreAsciiCase s needle)
  { include_plan_tool := some (has "plan"),
    include_apply_patch_tool := some (has "apply_patch" || has "apply-patch"),
    include_view_image_tool := some (has "view_image" || has "view-image"),
    tools_web_search_request := some (has "web_search" || has "web-search") }

/-- The instructions_file extraction of CodexTomlParser::parse: a string
value only, anything else is warned and ignored. -/
def codexInstructionsFile (tbl : List (String × Toml)) : Option String :=
  match lookupA tbl "instructions_file" with
  | some (Toml.str s) => some s
  | some _ => none
  | none => none

/-- The instructions resolution of CodexTomlParser::parse: the inline
string, otherwise — when neither field is present — the sibling prompt
file contents (when readable). -/
def codexInstructions (promptFile : Option String)
    (tbl : List (String × Toml)) : Option String :=
  if (codexInstructionsFile tbl).isNone &&
      ((lookupA tbl "instructions").bind Toml.asStr).isNone then
    match promptFile with
    | some s => some s
    | none => none
  else (lookupA tbl "instructions").bind Toml.asStr

/-- CodexTomlParser::parse, over the parsed TOML root table (the toml
crate is external).  runParse is the serde deserialization of the run
table (none = invalid, which only warns); promptFile is the contents of
the sibling stem.prompt.md when it exists and is readable.  Warned-and-
ignored shapes (non-string instructions_file, non-table run, unexpected
tags or tools types, stray keys) all collapse to none as in the source. -/
def codex_toml_parse (runParse : List (String × Toml) → Option AgentRun)
    (promptFile : Option String) (tbl : List (String × Toml)) :
    Except String AgentConfig :=
  match (lookupA tbl "name").bind Toml.asStr with
  | none => Except.error "missing name"
  | some name =>
      let description :=
        ((lookupA tbl "description").bind Toml.asStr).getD "Agent"
      let tags : Option (List String) :=
        match lookupA tbl "tags" with
        | some (Toml.arr items) =>
            let v := items.filterMap Toml.asStr
            if v.isEmpty then none else some v
        | some (Toml.str s) =>
            let v := (((splitBy (fun c => c = ',' || isWs c) s.data).map
                (fun l => (⟨l⟩ : String))).filter
                (fun t => !((rustTrim t).isEmpty))).map rustTrim
            if v.isEmpty then none else some v
        | some _ => none
        | none => none
      let instructions_file : Option String := codexInstructionsFile tbl
      let instructions : Option String := codexInstructions promptFile tbl
      let run : Option AgentRun :=
        match lookupA tbl "run" with
        | some (Toml.table t) => runParse t
        | some _ => none
        | none => none
      let mcp_servers := lookupA tbl "mcp_servers"
      let toggles : Option AgentTogglePolicy :=
        match lookupA tbl "tools" with
        | some (Toml.arr items) =>
            some (map_tools_to_toggles (items.filterMap Toml.asStr))
        | some (Toml.str s) =>
            some (map_tools_to_toggles
              ((((splitBy (fun c => c = ',' || isWs c) s.data).map
                (fun l => (⟨l⟩ : String))).filter
                (fun t => !((rustTrim t).isEmpty))).map rustTrim))
        | some _ => none
        | none => none
      Except.ok
        { name := name, description := description, tags := tags,
          toggles := toggles, mcp_tool_refs := none,
          instructions_file := instructions_file,
          instructions := instructions, run := run,
          mcp_servers := mcp_servers }

/-- read_instructions from loader.rs, with the filesystem read as an
oracle (none = read failed): prefer an instructions_file whose contents
are non-blank after trimming, else fall back to the inline value. -/
def read_instructions (readFile : String → Option String)
    (agent : AgentConfig) : Option String :=
  match agent.instructions_file with
  | some p =>
      match readFile p with
      | some s =>
          if !((rustTrim s).isEmpty) then some s else agent.instructions
      | none => agent.instructions
  | none => agent.instructions

theorem rustTrim_idem (s : String) : rustTrim (rustTrim s) = rustTrim s := by
  show (⟨trimBy isWs (trimBy isWs s.data)⟩ : String) = ⟨trimBy isWs s.data⟩
  rw [trimBy_eq_self (trimBy_head s.data) (trimBy_last s.data)]

theorem rustTrim_ne_empty_not_wsOnly (s : String)
    (h : rustTrim s ≠ "") : isWsOnly (rustTrim s) = false := by
  unfold isWsOnly
  cases hd : (rustTrim s).data with
  | nil =>
      exact absurd (congrArg String.mk hd) h
  | cons c rest =>
      have hc : isWs c = false := by
        apply trimBy_head s.data c
        show (trimBy isWs s.data).head? = some c
        rw [show trimBy isWs s.data = (rustTrim s).data from rfl, hd]
        rfl
      simp [hd, hc]

/-- Oracle standing for serde_yaml on the one-field buffer used by the C7
counterexample and witness. -/
def yaml7 : String → Option Frontmatter := fun s =>
  if s = "name: X\n" then some { name := "X" } else none

/-- C7 (counterexample): an accepted .agent.md input whose body is empty
yields instructions = some of the empty string — a whitespace-only value,
not none — and read_instructions carries it into the prepared agent. -/
theorem C7_instructions_counterexample :
    ∃ cfg, anthropic_parse yaml7 "---\nname: X\n---" = Except.ok cfg ∧
      cfg.instructions = some "" ∧ isWsOnly "" = true ∧
      read_instructions (fun _ => none) cfg = some "" := by
  refine ⟨_, rfl, rfl, rfl, rfl⟩

/-- C7 (amended): the frontmatter parsers produce instructions = some of
the trimmed body — a value with no surrounding whitespace that is
whitespace-only only when it is empty; the Codex TOML parser passes the
inline instructions string, or the sibling prompt-file contents, through
verbatim; and read_instructions yields either a file string that is
non-blank after trimming or the parser value unchanged, so a prepared
agent can carry an empty (but never a non-empty whitespace-only
frontmatter) instructions string. -/
theorem C7_instructions_amended :
    (∀ (yaml : String → Option Frontmatter) (content : String)
        (cfg : AgentConfig) (s : String),
      anthropic_parse yaml content = Except.ok cfg →
      cfg.instructions = some s →
      rustTrim s = s ∧ (s ≠ "" → isWsOnly s = false)) ∧
    (∀ (yaml : String → Option VsFrontmatter) (stem content : String)
        (cfg : AgentConfig) (s : String),
      vscode_parse yaml stem content = Except.ok cfg →
      cfg.instructions = some s →
      rustTrim s = s ∧ (s ≠ "" → isWsOnly s = false)) ∧
    (∀ (runParse : List (String × Toml) → Option AgentRun)
        (promptFile : Option String) (tbl : List (String × Toml))
        (cfg : AgentConfig) (s : String),
      codex_toml_parse runParse promptFile tbl = Except.ok cfg →
      cfg.instructions = some s →
      (lookupA tbl "instructions").bind Toml.asStr = some s ∨
        promptFile = some s) ∧
    (∀ (readFile : String → Option String) (agent : AgentConfig)
        (s : String),
      read_instructions readFile agent = some s →
      (∃ p, agent.instructions_file = some p ∧ readFile p = some s ∧
        (rustTrim s).isEmpty = false) ∨ agent.instructions = some s) := by
  refine ⟨?_, ?_, ?_, ?_⟩
  · intro yaml content cfg s hok hs
    unfold anthropic_parse at hok
    split at hok
    · cases hok
    · split at hok
      · cases hok
      · injection hok with hok
        rw [← hok] at hs
        injection hs with hs2
        subst hs2
        exact ⟨rustTrim_idem _, fun hne => rustTrim_ne_empty_not_wsOnly _ hne⟩
  · intro yaml stem content cfg s hok hs
    unfold vscode_parse at hok
    split at hok
    · cases hok
    · split at hok
      · cases hok
      · injection hok with hok
        rw [← hok] at hs
        injection hs with hs2
        subst hs2
        exact ⟨rustTrim_idem _, fun hne => rustTrim_ne_empty_not_wsOnly _ hne⟩
  · intro runParse promptFile tbl cfg s hok hs
    unfold codex_toml_parse at hok
    split at hok
    · cases hok
    · injection hok with hok
      rw [← hok] at hs
      have hs' : codexInstructions promptFile tbl = some s := hs
      unfold codexInstructions at hs'
      split at hs'
      · split at hs'
        · right
          exact hs'
        · cases hs'
      · left
        exact hs'
  · intro readFile agent s h
    unfold read_instructions at h
    split at h
    · rename_i p hp
      split at h
      · rename_i s0 hs0
        split at h
        · rename_i hnb
          left
          injection h with h2
          subst h2
          exact ⟨p, hp, hs0, by simpa using hnb⟩
        · right
          exact h
      · right
        exact h
    · right
      exact h

theorem C8_safe_name_idempotent_witness :
    safe_name (safe_name "Hello World!") = safe_name "Hello World!" ∧
    safe_name "Hello World!" = "hello_world" :=
  ⟨(C8_safe_name_idempotent "Hello World!").1, by decide⟩

theorem C7_instructions_amended_witness :
    rustTrim "body" = "body" ∧ ("body" ≠ "" → isWsOnly "body" = false) :=
  C7_instructions_amended.1 yaml7 "---\nname: X\n---\nbody" _ "body" rfl rfl

end Switchboard
